import Mathlib

/-!
# JWT helper (`pkgs/jwt/jwt.go`): a shallow embedding

The package wraps `github.com/golang-jwt/jwt/v5`.  The functions of `jwt.go`
(`GenerateToken`, `GenerateTokenWithExpiry`, `ParseToken`,
`ParseTokenWithoutValidation`, `IsTokenExpired`, `GetTokenExpiration`, the
`BaseClaims` accessors) are embedded one for one.  The parts of the imported
library they call (`NewNumericDate`, `NewWithClaims`, `SignedString`,
`ParseWithClaims` with the default parser and validator) are embedded in the
section "Library" from the library's published behaviour.

Conventions.
* Instants and durations are integers counting nanoseconds (`time.Time` as
  nanoseconds since the Unix epoch, `time.Duration`); the range limits of the
  Go types are not modelled.
* Every reading of the clock (`time.Now()`) is an explicit argument.
* A Go method that mutates the claims object it receives through a pointer
  returns the new state of that object.
* The keyed hash is an argument `hmac`: every theorem holds for any function
  in its place.
* A compact token is represented by its three segments after base64url and
  JSON decoding; a segment that does not decode is `none`.  JSON numbers are
  integers and JSON arrays are arrays of strings.
-/

set_option autoImplicit false

namespace JWT

/-! ## Library: time -/

/-- Nanoseconds since the Unix epoch (`time.Time`). -/
abbrev Time := Int

/-- Nanoseconds (`time.Duration`). -/
abbrev Duration := Int

/-- Value of `time.Second`. -/
def Second : Duration := 1000000000

/-- Value of `jwt.TimePrecision`, the library default. -/
def TimePrecision : Duration := Second

/-- Value of `time.Time{}`: 1 January of year 1, 00:00:00 UTC. -/
def zeroTime : Time := -62135596800 * Second

/-- Method `Time.Truncate`: round down to a multiple of `d`; a non-positive `d`
leaves the instant unchanged. -/
def Truncate (t : Time) (d : Duration) : Time :=
  if d ≤ 0 then t else t - t % d

/-- Method `Time.Add`. -/
def Add (t : Time) (d : Duration) : Time := t + d

/-- Method `Time.Before`. -/
def Before (t u : Time) : Bool := decide (t < u)

/-- The instant held by a `jwt.NumericDate`. -/
abbrev NumericDate := Time

/-- Function `jwt.NewNumericDate`: the instant truncated to `TimePrecision`. -/
def NewNumericDate (t : Time) : NumericDate := Truncate t TimePrecision

/-! ## Library: JSON documents and token strings -/

/-- A JSON value of a header or payload. -/
inductive JSONValue where
  | null
  | bool (b : Bool)
  | number (n : Int)
  | string (s : String)
  | array (xs : List String)
deriving DecidableEq

/-- A JSON object: its members in document order. -/
abbrev JSONObject := List (String × JSONValue)

/-- Member lookup; of two members with one name the later one counts. -/
def JSONObject.get : JSONObject → String → Option JSONValue
  | [], _ => none
  | (k', v) :: rest, k =>
    match JSONObject.get rest k with
    | some w => some w
    | none => if k' = k then some v else none

/-- Bytes of a signature. -/
abbrev Signature := List Nat

/-- A token string as `strings.Split(tokenString, ".")` and the segment
decoders see it. -/
inductive TokenString where
  /-- The string does not consist of three dot-separated segments. -/
  | notThreeSegments
  /-- Three segments; each is `none` when it is not base64url (and, for the
  first two, not a JSON object). -/
  | compact (header : Option JSONObject) (payload : Option JSONObject)
      (signature : Option Signature)
deriving DecidableEq

/-- The text that is signed: the header and payload segments. -/
abbrev SigningString := JSONObject × JSONObject

/-! ## Library: signing methods -/

/-- Hash functions of the registered signing methods. -/
inductive Hash where
  | SHA256 | SHA384 | SHA512
deriving DecidableEq

/-- The registered signing methods, by their Go type. -/
inductive SigningMethod where
  | HMAC (h : Hash)
  | RSA (h : Hash)
  | RSAPSS (h : Hash)
  | ECDSA (h : Hash)
  | Ed25519
  | None
deriving DecidableEq

/-- Function `jwt.GetSigningMethod`: the method registered under an `alg` name. -/
def GetSigningMethod (alg : String) : Option SigningMethod :=
  if alg = "HS256" then some (.HMAC .SHA256)
  else if alg = "HS384" then some (.HMAC .SHA384)
  else if alg = "HS512" then some (.HMAC .SHA512)
  else if alg = "RS256" then some (.RSA .SHA256)
  else if alg = "RS384" then some (.RSA .SHA384)
  else if alg = "RS512" then some (.RSA .SHA512)
  else if alg = "PS256" then some (.RSAPSS .SHA256)
  else if alg = "PS384" then some (.RSAPSS .SHA384)
  else if alg = "PS512" then some (.RSAPSS .SHA512)
  else if alg = "ES256" then some (.ECDSA .SHA256)
  else if alg = "ES384" then some (.ECDSA .SHA384)
  else if alg = "ES512" then some (.ECDSA .SHA512)
  else if alg = "EdDSA" then some .Ed25519
  else if alg = "none" then some .None
  else none

/-- Method `SigningMethod.Alg`. -/
def SigningMethod.Alg : SigningMethod → String
  | .HMAC .SHA256 => "HS256"
  | .HMAC .SHA384 => "HS384"
  | .HMAC .SHA512 => "HS512"
  | .RSA .SHA256 => "RS256"
  | .RSA .SHA384 => "RS384"
  | .RSA .SHA512 => "RS512"
  | .RSAPSS .SHA256 => "PS256"
  | .RSAPSS .SHA384 => "PS384"
  | .RSAPSS .SHA512 => "PS512"
  | .ECDSA .SHA256 => "ES256"
  | .ECDSA .SHA384 => "ES384"
  | .ECDSA .SHA512 => "ES512"
  | .Ed25519 => "EdDSA"
  | .None => "none"

/-- A keyed hash: hash function, key bytes, signed text. -/
abbrev HMACFn := Hash → String → SigningString → Signature

/-! ## Library: errors -/

/-- What the validator reports about the claims. -/
inductive ClaimError where
  /-- Sentinel `ErrTokenExpired`. -/
  | TokenExpired
  /-- Sentinel `ErrTokenNotValidYet`. -/
  | TokenNotValidYet
  /-- An accessor of the claims object returned an error. -/
  | accessor (msg : String)
  /-- The `Validate` method of the claims object returned an error. -/
  | custom (msg : String)
deriving DecidableEq

/-- Errors of the library and of `jwt.go`. -/
inductive Error where
  /-- Sentinel `ErrTokenMalformed`. -/
  | TokenMalformed (msg : String)
  /-- Sentinel `ErrTokenUnverifiable`, raised by the parser itself. -/
  | TokenUnverifiable (msg : String)
  /-- Sentinel `ErrTokenUnverifiable` wrapping the error returned by the key callback. -/
  | keyfunc (cause : Error)
  /-- Sentinel `ErrTokenSignatureInvalid`. -/
  | TokenSignatureInvalid
  /-- Sentinel `ErrTokenInvalidClaims` joined with what the validator found. -/
  | TokenInvalidClaims (errs : List ClaimError)
  /-- Sentinel `ErrInvalidKeyType`, from `Sign`. -/
  | InvalidKeyType
  /-- The claims could not be serialised. -/
  | marshal (msg : String)
  /-- Error `fmt.Errorf("unexpected signing method: %v", token.Header["alg"])`. -/
  | unexpectedSigningMethod (alg : Option JSONValue)
  /-- Error `fmt.Errorf("failed to parse token: %w", err)`. -/
  | failedToParse (cause : Error)
  /-- Error `fmt.Errorf("invalid token")`. -/
  | invalidToken
  /-- Error `fmt.Errorf("invalid token signature")`. -/
  | invalidTokenSignature
  /-- Error `fmt.Errorf("token has no expiration time")`. -/
  | noExpirationTime
deriving DecidableEq

/-- The sentinel errors of the library. -/
inductive Sentinel where
  | ErrTokenMalformed
  | ErrTokenUnverifiable
  | ErrTokenSignatureInvalid
  | ErrTokenInvalidClaims
  | ErrTokenExpired
  | ErrTokenNotValidYet
deriving DecidableEq

/-- Function `errors.Is(err, target)` for a sentinel of the library. -/
def Error.Is : Error → Sentinel → Bool
  | .TokenMalformed _, s => s = .ErrTokenMalformed
  | .TokenUnverifiable _, s => s = .ErrTokenUnverifiable
  | .keyfunc cause, s => s = .ErrTokenUnverifiable || cause.Is s
  | .TokenSignatureInvalid, s => s = .ErrTokenSignatureInvalid
  | .TokenInvalidClaims errs, s =>
    s = .ErrTokenInvalidClaims
      || (s = .ErrTokenExpired && errs.contains .TokenExpired)
      || (s = .ErrTokenNotValidYet && errs.contains .TokenNotValidYet)
  | .failedToParse cause, s => cause.Is s
  | _, _ => false

/-! ## Library: claims, signing, parsing -/

/-- The interface `jwt.Claims`, with what the library does to a claims object
besides calling its accessors: serialising it (`json.Marshal`), decoding a
payload into it (`json.Unmarshal`, which keeps what the payload does not
name), calling its `Validate` method when it has one (`jwt.ClaimsValidator`),
and, for `jwt.go`, the optional method `SetExpiry` of `CustomClaims`. -/
class Claims (C : Type) where
  GetExpirationTime : C → Except String (Option NumericDate)
  GetIssuedAt : C → Except String (Option NumericDate)
  GetNotBefore : C → Except String (Option NumericDate)
  GetIssuer : C → Except String String
  GetSubject : C → Except String String
  GetAudience : C → Except String (List String)
  GetID : C → Except String String
  /-- Serialisation by `json.Marshal`. -/
  MarshalJSON : C → Except String JSONObject
  /-- Decoding by `json.Unmarshal` into an existing object. -/
  UnmarshalJSON : JSONObject → C → Except String C
  /-- The method `Validate() error` of `jwt.ClaimsValidator`; `none` when it
  is absent or returns nil. -/
  Validate : C → Option String
  /-- The method `SetExpiry(expiry)` when the type satisfies `CustomClaims`,
  with the clock reading it uses as first argument. -/
  SetExpiry : Option (Time → Duration → C → C)

/-- A `jwt.Token` as the key callback and the callers of `ParseWithClaims`
see it. -/
structure Token (C : Type) where
  Header : JSONObject
  Claims : C
  Method : Option SigningMethod
  Valid : Bool

/-- Result of `jwt.ParseWithClaims`: the state of the caller's claims object
after the call, the token (nil when the string has not three segments) and
the error. -/
structure ParseResult (C : Type) where
  claims : C
  token : Option (Token C)
  err : Option Error

/-- Method `SigningMethod.Sign` with a `[]byte` key: only the HMAC methods accept
such a key. -/
def SigningMethod.Sign (hmac : HMACFn) (m : SigningMethod) (signingString : SigningString)
    (key : String) : Except Error Signature :=
  match m with
  | .HMAC h => .ok (hmac h key signingString)
  | _ => .error .InvalidKeyType

/-- Method `SigningMethod.Verify` with a `[]byte` key: an HMAC method recomputes the
keyed hash and compares; the other methods reject the key. -/
def SigningMethod.Verify (hmac : HMACFn) (m : SigningMethod) (signingString : SigningString)
    (sig : Signature) (key : String) : Bool :=
  match m with
  | .HMAC h => decide (sig = hmac h key signingString)
  | _ => false

/-- Header written by `jwt.NewWithClaims(method, claims)`, its members in the
order `json.Marshal` gives a map. -/
def NewHeader (method : SigningMethod) : JSONObject :=
  [("alg", .string method.Alg), ("typ", .string "JWT")]

/-- The call `jwt.NewWithClaims(method, claims).SignedString(key)`. -/
def SignedString {C : Type} [Claims C] (hmac : HMACFn) (method : SigningMethod) (claims : C)
    (key : String) : Except Error TokenString :=
  match Claims.MarshalJSON claims with
  | .error msg => .error (.marshal msg)
  | .ok payload =>
    match method.Sign hmac (NewHeader method, payload) key with
    | .error e => .error e
    | .ok sig => .ok (.compact (some (NewHeader method)) (some payload) (some sig))

/-- Method `Validator.verifyExpiresAt` of the default validator (no leeway, `exp` not
required): an absent `exp` passes, a present one passes when
`now.Before(exp)`. -/
def verifyExpiresAt {C : Type} [Claims C] (now : Time) (claims : C) : List ClaimError :=
  match Claims.GetExpirationTime claims with
  | .error msg => [.accessor msg]
  | .ok none => []
  | .ok (some exp) => if Before now exp then [] else [.TokenExpired]

/-- Method `Validator.verifyNotBefore` of the default validator: an absent `nbf`
passes, a present one passes when `!now.Before(nbf)`. -/
def verifyNotBefore {C : Type} [Claims C] (now : Time) (claims : C) : List ClaimError :=
  match Claims.GetNotBefore claims with
  | .error msg => [.accessor msg]
  | .ok none => []
  | .ok (some nbf) => if !Before now nbf then [] else [.TokenNotValidYet]

/-- Method `Validator.Validate` of the default validator: expiry, not-before, then
the claims object's own `Validate`; the errors found are joined. -/
def validatorValidate {C : Type} [Claims C] (now : Time) (claims : C) : List ClaimError :=
  verifyExpiresAt now claims ++ verifyNotBefore now claims ++
    (match Claims.Validate claims with
     | none => []
     | some msg => [.custom msg])

/-- Function `jwt.ParseWithClaims(tokenString, claims, keyFunc)` of the library,
which builds a parser with no option (`NewParser().ParseWithClaims`): split
the string and decode header and payload (`ParseUnverified`, which decodes
the payload into `claims`), look the method up under the header's `alg`,
decode the signature, ask the callback for the key, verify the signature
and, since no option turns it off, validate the claims with the default
validator.  `token.Valid` is set only when all of it passed.  (Releases of
the library before 5.2 call the callback before they decode the signature;
no statement below depends on that order.) -/
def ParseWithClaims {C : Type} [Claims C] (hmac : HMACFn) (now : Time) (tokenString : TokenString)
    (claims : C) (keyFunc : Token C → Except Error String) : ParseResult C :=
  match tokenString with
  | .notThreeSegments =>
    ⟨claims, none, some (.TokenMalformed "token contains an invalid number of segments")⟩
  | .compact none _ _ =>
    ⟨claims, none, some (.TokenMalformed "could not decode header")⟩
  | .compact (some header) none _ =>
    ⟨claims, some ⟨header, claims, none, false⟩,
      some (.TokenMalformed "could not base64 decode claim")⟩
  | .compact (some header) (some payload) signature =>
    match Claims.UnmarshalJSON payload claims with
    | .error _ =>
      ⟨claims, some ⟨header, claims, none, false⟩,
        some (.TokenMalformed "could not JSON decode claim")⟩
    | .ok c =>
      match header.get "alg" with
      | some (.string alg) =>
        match GetSigningMethod alg with
        | none =>
          ⟨c, some ⟨header, c, none, false⟩,
            some (.TokenUnverifiable "signing method (alg) is unavailable")⟩
        | some method =>
          match signature with
          | none =>
            ⟨c, some ⟨header, c, some method, false⟩,
              some (.TokenMalformed "could not base64 decode signature")⟩
          | some sig =>
            match keyFunc ⟨header, c, some method, false⟩ with
            | .error e => ⟨c, some ⟨header, c, some method, false⟩, some (.keyfunc e)⟩
            | .ok key =>
              if method.Verify hmac (header, payload) sig key then
                match validatorValidate now c with
                | [] => ⟨c, some ⟨header, c, some method, true⟩, none⟩
                | e :: es =>
                  ⟨c, some ⟨header, c, some method, false⟩, some (.TokenInvalidClaims (e :: es))⟩
              else ⟨c, some ⟨header, c, some method, false⟩, some .TokenSignatureInvalid⟩
      | _ =>
        ⟨c, some ⟨header, c, none, false⟩,
          some (.TokenUnverifiable "signing method (alg) is unspecified")⟩

/-! ## `jwt.go` -/

/-- JWTManager handles generic JWT token operations. -/
structure JWTManager where
  secretKey : String
deriving DecidableEq

/-- NewJWTManager creates a new JWT manager instance; the key keeps the bytes
of the string. -/
def NewJWTManager (secretKey : String) : JWTManager :=
  { secretKey := secretKey }

/-- The key callback that `ParseToken`, `ParseTokenWithoutValidation` and
`IsTokenExpired` each pass to `jwt.ParseWithClaims`. -/
def JWTManager.keyFunc {C : Type} (j : JWTManager) (token : Token C) : Except Error String :=
  match token.Method with
  | some (.HMAC _) => .ok j.secretKey
  | _ => .error (.unexpectedSigningMethod (token.Header.get "alg"))

/-- GenerateToken generates a JWT token with the provided claims. -/
def JWTManager.GenerateToken {C : Type} [Claims C] (hmac : HMACFn) (j : JWTManager)
    (claims : C) : Except Error TokenString :=
  SignedString hmac (.HMAC .SHA256) claims j.secretKey

/-- GenerateTokenWithExpiry generates a JWT token with custom expiry; returns
the claims object as the call leaves it, and the result. -/
def JWTManager.GenerateTokenWithExpiry {C : Type} [Claims C] (hmac : HMACFn) (j : JWTManager)
    (now : Time) (claims : C) (expiry : Duration) : C × Except Error TokenString :=
  let claims1 :=
    match (Claims.SetExpiry : Option (Time → Duration → C → C)) with
    | some setExpiry => setExpiry now expiry claims
    | none => claims
  (claims1, SignedString hmac (.HMAC .SHA256) claims1 j.secretKey)

/-- ParseToken parses a JWT token and returns the claims: the claims object
as the call leaves it, and the error. -/
def JWTManager.ParseToken {C : Type} [Claims C] (hmac : HMACFn) (j : JWTManager) (now : Time)
    (tokenString : TokenString) (claims : C) : C × Option Error :=
  let r := ParseWithClaims hmac now tokenString claims j.keyFunc
  match r.err with
  | some err => (r.claims, some (.failedToParse err))
  | none =>
    match r.token with
    | some token => if !token.Valid then (r.claims, some .invalidToken) else (r.claims, none)
    | none => (r.claims, some .invalidToken)

/-- ParseTokenWithoutValidation parses a token without validating expiry:
the claims object as the call leaves it, and the error. -/
def JWTManager.ParseTokenWithoutValidation {C : Type} [Claims C] (hmac : HMACFn)
    (j : JWTManager) (now : Time) (tokenString : TokenString) (claims : C) : C × Option Error :=
  let r := ParseWithClaims hmac now tokenString claims j.keyFunc
  match r.err with
  | some err => (r.claims, some (.failedToParse err))
  | none =>
    match r.token with
    | some token =>
      if !token.Valid then (r.claims, some .invalidTokenSignature) else (r.claims, none)
    | none => (r.claims, some .invalidTokenSignature)

/-- IsTokenExpired checks if a token is expired.  The three clock readings
are those of the first parse, of the second parse and of the final
comparison.  Returns the claims object as the call leaves it, the flag and
the error. -/
def JWTManager.IsTokenExpired {C : Type} [Claims C] (hmac : HMACFn) (j : JWTManager)
    (now1 now2 now3 : Time) (tokenString : TokenString) (claims : C) :
    C × Bool × Option Error :=
  match j.ParseToken hmac now1 tokenString claims with
  | (claims1, none) => (claims1, false, none)
  | (claims1, some _) =>
    let r := ParseWithClaims hmac now2 tokenString claims1 j.keyFunc
    match r.err with
    | some parseErr => (r.claims, true, some parseErr)
    | none =>
      match r.token with
      | none => (r.claims, false, none) -- a nil token always comes with an error
      | some token =>
        match Claims.GetExpirationTime token.Claims with
        | .ok (some expTime) =>
          if Before expTime now3 then (r.claims, true, none) else (r.claims, false, none)
        | _ => (r.claims, false, none)

/-- GetTokenExpiration returns the expiration time of a token: the claims
object as the call leaves it, the instant and the error. -/
def JWTManager.GetTokenExpiration {C : Type} [Claims C] (hmac : HMACFn) (j : JWTManager)
    (now : Time) (tokenString : TokenString) (claims : C) : C × Time × Option Error :=
  match j.ParseToken hmac now tokenString claims with
  | (claims1, some err) => (claims1, zeroTime, some err)
  | (claims1, none) =>
    match Claims.GetExpirationTime claims1 with
    | .ok (some expTime) => (claims1, expTime, none)
    | _ => (claims1, zeroTime, some .noExpirationTime)

/-- BaseClaims provides a basic implementation of jwt.Claims. -/
structure BaseClaims where
  ExpiresAt : Option NumericDate := none
  IssuedAt : Option NumericDate := none
  NotBefore : Option NumericDate := none
  Issuer : String := ""
  Subject : String := ""
  Audience : List String := []
  ID : String := ""
deriving DecidableEq

/-- GetExpirationTime returns the expiration time. -/
def BaseClaims.GetExpirationTime (b : BaseClaims) : Except String (Option NumericDate) :=
  .ok b.ExpiresAt

/-- GetNotBefore returns the not before time. -/
def BaseClaims.GetNotBefore (b : BaseClaims) : Except String (Option NumericDate) :=
  .ok b.NotBefore

/-- GetIssuedAt returns the issued at time. -/
def BaseClaims.GetIssuedAt (b : BaseClaims) : Except String (Option NumericDate) :=
  .ok b.IssuedAt

/-- GetIssuer returns the issuer. -/
def BaseClaims.GetIssuer (b : BaseClaims) : Except String String := .ok b.Issuer

/-- GetSubject returns the subject. -/
def BaseClaims.GetSubject (b : BaseClaims) : Except String String := .ok b.Subject

/-- GetAudience returns the audience. -/
def BaseClaims.GetAudience (b : BaseClaims) : Except String (List String) := .ok b.Audience

/-- GetID returns the ID. -/
def BaseClaims.GetID (b : BaseClaims) : Except String String := .ok b.ID

/-- SetExpiry sets the token expiration time. -/
def BaseClaims.SetExpiry (now : Time) (expiry : Duration) (b : BaseClaims) : BaseClaims :=
  { b with ExpiresAt := some (NewNumericDate (Add now expiry)) }

/-- SetIssuedAt sets the token issued at time. -/
def BaseClaims.SetIssuedAt (issuedAt : Time) (b : BaseClaims) : BaseClaims :=
  { b with IssuedAt := some (NewNumericDate issuedAt) }

/-- SetNotBefore sets the token not before time. -/
def BaseClaims.SetNotBefore (notBefore : Time) (b : BaseClaims) : BaseClaims :=
  { b with NotBefore := some (NewNumericDate notBefore) }

/-- SetIssuer sets the token issuer. -/
def BaseClaims.SetIssuer (issuer : String) (b : BaseClaims) : BaseClaims :=
  { b with Issuer := issuer }

/-- SetSubject sets the token subject. -/
def BaseClaims.SetSubject (subject : String) (b : BaseClaims) : BaseClaims :=
  { b with Subject := subject }

/-- SetAudience sets the token audience. -/
def BaseClaims.SetAudience (audience : List String) (b : BaseClaims) : BaseClaims :=
  { b with Audience := audience }

/-- SetID sets the token ID. -/
def BaseClaims.SetID (id : String) (b : BaseClaims) : BaseClaims :=
  { b with ID := id }

/-! ### JSON form of the claims (struct tags of `BaseClaims`) -/

/-- Method `NumericDate.MarshalJSON`: the instant truncated to `TimePrecision`, in
seconds. -/
def marshalNumericDate (date : NumericDate) : JSONValue :=
  .number (Truncate date TimePrecision / Second)

/-- A member with tag `omitempty` holding a `*NumericDate`. -/
def dateMember (name : String) (date : Option NumericDate) : JSONObject :=
  match date with
  | none => []
  | some d => [(name, marshalNumericDate d)]

/-- A member with tag `omitempty` holding a string. -/
def stringMember (name : String) (v : String) : JSONObject :=
  if v = "" then [] else [(name, .string v)]

/-- A member with tag `omitempty` holding a `jwt.ClaimStrings`, written as an
array (`MarshalSingleStringAsArray` is true by default). -/
def stringsMember (name : String) (v : List String) : JSONObject :=
  if v = [] then [] else [(name, .array v)]

/-- Decoding of a member into a `*NumericDate` field: an absent member keeps
the field, null clears it, a number of seconds sets it.  (A JSON string that
spells a number, which the library also reads, is outside this model.) -/
def decodeDate (o : JSONObject) (name : String) (cur : Option NumericDate) :
    Except String (Option NumericDate) :=
  match o.get name with
  | none => .ok cur
  | some .null => .ok none
  | some (.number n) => .ok (some (NewNumericDate (n * Second)))
  | some _ => .error ("could not parse NumericDate: " ++ name)

/-- Decoding of a member into a string field: an absent or null member keeps
the field. -/
def decodeString (o : JSONObject) (name : String) (cur : String) : Except String String :=
  match o.get name with
  | none => .ok cur
  | some .null => .ok cur
  | some (.string v) => .ok v
  | some _ => .error ("cannot unmarshal into string: " ++ name)

/-- Decoding of a member into a `jwt.ClaimStrings` field
(`ClaimStrings.UnmarshalJSON`): a string gives a one-element list. -/
def decodeStrings (o : JSONObject) (name : String) (cur : List String) :
    Except String (List String) :=
  match o.get name with
  | none => .ok cur
  | some .null => .ok cur
  | some (.string v) => .ok [v]
  | some (.array vs) => .ok vs
  | some _ => .error ("invalid type for claim: " ++ name)

/-- The members `json.Marshal` writes for a `BaseClaims`. -/
def BaseClaims.MarshalJSON (b : BaseClaims) : JSONObject :=
  dateMember "exp" b.ExpiresAt ++ dateMember "iat" b.IssuedAt ++ dateMember "nbf" b.NotBefore ++
    stringMember "iss" b.Issuer ++ stringMember "sub" b.Subject ++
    stringsMember "aud" b.Audience ++ stringMember "jti" b.ID

/-- What `json.Unmarshal` does to a `BaseClaims`. -/
def BaseClaims.UnmarshalJSON (o : JSONObject) (b : BaseClaims) : Except String BaseClaims := do
  let exp ← decodeDate o "exp" b.ExpiresAt
  let iat ← decodeDate o "iat" b.IssuedAt
  let nbf ← decodeDate o "nbf" b.NotBefore
  let iss ← decodeString o "iss" b.Issuer
  let sub ← decodeString o "sub" b.Subject
  let aud ← decodeStrings o "aud" b.Audience
  let jti ← decodeString o "jti" b.ID
  pure { ExpiresAt := exp, IssuedAt := iat, NotBefore := nbf, Issuer := iss, Subject := sub,
         Audience := aud, ID := jti }

instance : Claims BaseClaims where
  GetExpirationTime := BaseClaims.GetExpirationTime
  GetIssuedAt := BaseClaims.GetIssuedAt
  GetNotBefore := BaseClaims.GetNotBefore
  GetIssuer := BaseClaims.GetIssuer
  GetSubject := BaseClaims.GetSubject
  GetAudience := BaseClaims.GetAudience
  GetID := BaseClaims.GetID
  MarshalJSON := fun b => .ok b.MarshalJSON
  UnmarshalJSON := BaseClaims.UnmarshalJSON
  Validate := fun _ => none
  SetExpiry := some BaseClaims.SetExpiry

/-! ### `jwt_test.go` -/

/-- TestClaims implements jwt.Claims for testing. -/
structure TestClaims extends BaseClaims where
  UserID : String := ""
  Email : String := ""
  Type_ : String := ""
deriving DecidableEq

/-- The method `SetExpiry` of `TestClaims`. -/
def TestClaims.SetExpiry (now : Time) (expiry : Duration) (t : TestClaims) : TestClaims :=
  { t with toBaseClaims := t.toBaseClaims.SetExpiry now expiry }

/-- The members `json.Marshal` writes for a `TestClaims`: those of the
embedded `BaseClaims`, then `user_id`, `email`, `type`. -/
def TestClaims.MarshalJSON (t : TestClaims) : JSONObject :=
  t.toBaseClaims.MarshalJSON ++
    [("user_id", .string t.UserID), ("email", .string t.Email), ("type", .string t.Type_)]

/-- What `json.Unmarshal` does to a `TestClaims`. -/
def TestClaims.UnmarshalJSON (o : JSONObject) (t : TestClaims) : Except String TestClaims := do
  let b ← t.toBaseClaims.UnmarshalJSON o
  let userID ← decodeString o "user_id" t.UserID
  let email ← decodeString o "email" t.Email
  let type ← decodeString o "type" t.Type_
  pure { toBaseClaims := b, UserID := userID, Email := email, Type_ := type }

instance : Claims TestClaims where
  GetExpirationTime := fun t => t.toBaseClaims.GetExpirationTime
  GetIssuedAt := fun t => t.toBaseClaims.GetIssuedAt
  GetNotBefore := fun t => t.toBaseClaims.GetNotBefore
  GetIssuer := fun t => t.toBaseClaims.GetIssuer
  GetSubject := fun t => t.toBaseClaims.GetSubject
  GetAudience := fun t => t.toBaseClaims.GetAudience
  GetID := fun t => t.toBaseClaims.GetID
  MarshalJSON := fun t => .ok t.MarshalJSON
  UnmarshalJSON := TestClaims.UnmarshalJSON
  Validate := fun _ => none
  SetExpiry := some TestClaims.SetExpiry

/-! ### Library: `jwt.RegisteredClaims` -/

/-- The library's `jwt.RegisteredClaims`: a claims type with the seven
registered fields and no `SetExpiry` method. -/
structure RegisteredClaims where
  Issuer : String := ""
  Subject : String := ""
  Audience : List String := []
  ExpiresAt : Option NumericDate := none
  NotBefore : Option NumericDate := none
  IssuedAt : Option NumericDate := none
  ID : String := ""
deriving DecidableEq

/-- The members `json.Marshal` writes for a `RegisteredClaims`. -/
def RegisteredClaims.MarshalJSON (r : RegisteredClaims) : JSONObject :=
  stringMember "iss" r.Issuer ++ stringMember "sub" r.Subject ++
    stringsMember "aud" r.Audience ++ dateMember "exp" r.ExpiresAt ++
    dateMember "nbf" r.NotBefore ++ dateMember "iat" r.IssuedAt ++ stringMember "jti" r.ID

/-- What `json.Unmarshal` does to a `RegisteredClaims`. -/
def RegisteredClaims.UnmarshalJSON (o : JSONObject) (r : RegisteredClaims) :
    Except String RegisteredClaims := do
  let iss ← decodeString o "iss" r.Issuer
  let sub ← decodeString o "sub" r.Subject
  let aud ← decodeStrings o "aud" r.Audience
  let exp ← decodeDate o "exp" r.ExpiresAt
  let nbf ← decodeDate o "nbf" r.NotBefore
  let iat ← decodeDate o "iat" r.IssuedAt
  let jti ← decodeString o "jti" r.ID
  pure { Issuer := iss, Subject := sub, Audience := aud, ExpiresAt := exp, NotBefore := nbf,
         IssuedAt := iat, ID := jti }

instance : Claims RegisteredClaims where
  GetExpirationTime := fun r => .ok r.ExpiresAt
  GetIssuedAt := fun r => .ok r.IssuedAt
  GetNotBefore := fun r => .ok r.NotBefore
  GetIssuer := fun r => .ok r.Issuer
  GetSubject := fun r => .ok r.Subject
  GetAudience := fun r => .ok r.Audience
  GetID := fun r => .ok r.ID
  MarshalJSON := fun r => .ok r.MarshalJSON
  UnmarshalJSON := RegisteredClaims.UnmarshalJSON
  Validate := fun _ => none
  SetExpiry := none

/-! ## Vocabulary of the statements -/

/-- The token has three decodable segments, its header names an HMAC method
and its signature is the keyed hash of its first two segments under `key`. -/
def TokenString.signedBy (hmac : HMACFn) (key : String) : TokenString → Bool
  | .compact (some header) (some payload) (some sig) =>
    match header.get "alg" with
    | some (.string alg) =>
      match GetSigningMethod alg with
      | some (.HMAC h) => decide (sig = hmac h key (header, payload))
      | _ => false
    | _ => false
  | _ => false

/-- The decoded payload segment of a token. -/
def TokenString.payload : TokenString → Option JSONObject
  | .compact _ p _ => p
  | .notThreeSegments => none

/-- The `alg` member of the header of a token, when it is a string. -/
def TokenString.alg : TokenString → Option String
  | .compact (some header) _ _ =>
    match header.get "alg" with
    | some (.string alg) => some alg
    | _ => none
  | _ => none

/-- The call failed with an error that `errors.Is` matches with the
sentinel. -/
def failsWith (err : Option Error) (target : Sentinel) : Bool :=
  match err with
  | some e => e.Is target
  | none => false

/-- The instants of the claims are whole seconds, as `NewNumericDate` and the
setters of `BaseClaims` make them. -/
def BaseClaims.wholeSeconds (b : BaseClaims) : Prop :=
  (∀ t, b.ExpiresAt = some t → t % Second = 0) ∧
  (∀ t, b.IssuedAt = some t → t % Second = 0) ∧
  (∀ t, b.NotBefore = some t → t % Second = 0)

/-- A keyed hash for the concrete evaluations: the key bytes followed by the
sizes of the two signed segments. -/
def exampleHMAC : HMACFn :=
  fun _ key s => key.toList.map Char.toNat ++ [s.1.length, s.2.length]

/-- The claims with each instant truncated to `TimePrecision`: what a token
carries of them. -/
def BaseClaims.truncated (b : BaseClaims) : BaseClaims :=
  { b with ExpiresAt := b.ExpiresAt.map NewNumericDate,
           IssuedAt := b.IssuedAt.map NewNumericDate,
           NotBefore := b.NotBefore.map NewNumericDate }

/-- The claims with each instant truncated to `TimePrecision`. -/
def TestClaims.truncated (t : TestClaims) : TestClaims :=
  { t with toBaseClaims := t.toBaseClaims.truncated }

/-- The token `GenerateToken` returns for claims whose JSON form is `p`:
header for HS256, payload `p`, keyed hash of both under `key`. -/
def issuedToken (hmac : HMACFn) (key : String) (p : JSONObject) : TokenString :=
  .compact (some (NewHeader (.HMAC .SHA256))) (some p)
    (some (hmac .SHA256 key (NewHeader (.HMAC .SHA256), p)))

/-- Claims of the tests, with an expiration at second 1000. -/
def expiredClaims : TestClaims :=
  { ExpiresAt := some (1000 * Second), Issuer := "test-service", UserID := "user123",
    Email := "test@example.com", Type_ := "access" }

/-- Claims of the tests, with no expiration and a not-before at second 2000. -/
def notYetClaims : TestClaims :=
  { NotBefore := some (2000 * Second), Issuer := "test-service", UserID := "user123",
    Email := "test@example.com", Type_ := "access" }

/-- Claims of the tests, with an expiration half a second after second 1000. -/
def halfSecondClaims : TestClaims :=
  { ExpiresAt := some (1000 * Second + 500000000), Issuer := "test-service",
    UserID := "user123", Email := "test@example.com", Type_ := "access" }

/-- Claims of the tests, with an expiration at second 5000. -/
def freshClaims : TestClaims :=
  { ExpiresAt := some (5000 * Second), Issuer := "test-service", Subject := "user123",
    UserID := "user123", Email := "test@example.com", Type_ := "access" }

/-- A token whose header names RS256 and whose payload segment does not
decode. -/
def rs256Undecodable : TokenString :=
  .compact (some [("alg", .string "RS256"), ("typ", .string "JWT")]) none (some [])

/-- A token whose header names RS256, with an empty payload object and an
empty signature. -/
def rs256Token : TokenString :=
  .compact (some [("alg", .string "RS256"), ("typ", .string "JWT")]) (some []) (some [])

/-- The manager of the tests. -/
def testManager : JWTManager := NewJWTManager "test-secret-key"

/-! ## The keyed hash of Go (`crypto/hmac`) -/

/-- The UTF-8 bytes of a character. -/
def utf8Bytes (c : Char) : List Nat :=
  if c.toNat < 128 then [c.toNat]
  else if c.toNat < 2048 then [192 + c.toNat / 64, 128 + c.toNat % 64]
  else if c.toNat < 65536 then
    [224 + c.toNat / 4096, 128 + c.toNat / 64 % 64, 128 + c.toNat % 64]
  else
    [240 + c.toNat / 262144, 128 + c.toNat / 4096 % 64, 128 + c.toNat / 64 % 64,
      128 + c.toNat % 64]

/-- The conversion `[]byte(secretKey)` of `NewJWTManager`. -/
def keyBytes (s : String) : List Nat :=
  (s.toList.map utf8Bytes).flatten

/-- Block size in bytes of the hash function (`hash.Hash.BlockSize`). -/
def Hash.BlockSize : Hash → Nat
  | .SHA256 => 64
  | .SHA384 => 128
  | .SHA512 => 128

/-- The key block of `hmac.New(h, key)`: a key longer than a block is hashed,
and the key is then copied into a block of zero bytes. -/
def keyBlock (hash : Hash → List Nat → List Nat) (h : Hash) (key : List Nat) : List Nat :=
  let k := if key.length > h.BlockSize then hash h key else key
  k ++ List.replicate (h.BlockSize - k.length) 0

/-- The keyed hash `hmac.New(h, key)`, `Write(text)`, `Sum(nil)` over a hash
function `hash` and the bytes `text` of the signed string: the hash of the
key block xor `0x5c` followed by the hash of the key block xor `0x36`
followed by the text. -/
def cryptoHMAC (hash : Hash → List Nat → List Nat) (text : SigningString → List Nat) : HMACFn :=
  fun h key m =>
    hash h ((keyBlock hash h (keyBytes key)).map (fun b => Nat.xor b 92) ++
      hash h ((keyBlock hash h (keyBytes key)).map (fun b => Nat.xor b 54) ++ text m))

/-- A hash function for the concrete evaluations: a checksum of the bytes. -/
def exampleHash : Hash → List Nat → List Nat :=
  fun _ bs => [bs.foldl (fun acc b => (acc * 31 + b) % 65521) 7]

/-- Bytes of a signed string for the concrete evaluations: the sizes of its
two segments. -/
def exampleText : SigningString → List Nat :=
  fun m => [m.1.length, m.2.length]

/-! ## Lemmas on JSON objects -/

theorem get_append (a b : JSONObject) (k : String) :
    JSONObject.get (a ++ b) k = (JSONObject.get b k).or (JSONObject.get a k) := by
  induction a with
  | nil => simp [JSONObject.get]
  | cons kv rest ih =>
    obtain ⟨k', v⟩ := kv
    show JSONObject.get ((k', v) :: (rest ++ b)) k = _
    rw [JSONObject.get, ih, JSONObject.get]
    cases JSONObject.get b k <;> cases JSONObject.get rest k <;> rfl

theorem get_dateMember (name k : String) (d : Option NumericDate) :
    JSONObject.get (dateMember name d) k =
      if name = k then d.map marshalNumericDate else none := by
  cases d <;> simp [dateMember, JSONObject.get]

theorem get_stringMember (name k v : String) :
    JSONObject.get (stringMember name v) k =
      if name = k ∧ v ≠ "" then some (.string v) else none := by
  unfold stringMember
  by_cases h : v = "" <;> simp [h, JSONObject.get]

theorem get_stringsMember (name k : String) (v : List String) :
    JSONObject.get (stringsMember name v) k =
      if name = k ∧ v ≠ [] then some (.array v) else none := by
  unfold stringsMember
  by_cases h : v = [] <;> simp [h, JSONObject.get]

/-! ## Lemmas on instants -/

theorem Truncate_second (t : Time) : Truncate t TimePrecision = t / Second * Second := by
  have h : ¬ ((1000000000 : Int) ≤ 0) := by decide
  simp only [Truncate, TimePrecision, Second, h, if_false]
  have := Int.ediv_add_emod t 1000000000
  linarith

theorem NewNumericDate_le (t : Time) : NewNumericDate t ≤ t := by
  have h : ¬ ((1000000000 : Int) ≤ 0) := by decide
  simp only [NewNumericDate, Truncate, TimePrecision, Second, h, if_false]
  have := Int.emod_nonneg t (show (1000000000 : Int) ≠ 0 by decide)
  linarith

theorem NewNumericDate_gt (t : Time) : t - Second < NewNumericDate t := by
  have h : ¬ ((1000000000 : Int) ≤ 0) := by decide
  simp only [NewNumericDate, Truncate, TimePrecision, Second, h, if_false]
  have := Int.emod_lt_of_pos t (show (0 : Int) < 1000000000 by decide)
  linarith

theorem decode_marshal (d : NumericDate) :
    NewNumericDate (Truncate d TimePrecision / Second * Second) = NewNumericDate d := by
  have hS : (Second : Int) ≠ 0 := by decide
  simp only [NewNumericDate]
  rw [Truncate_second d, Int.mul_ediv_cancel _ hS, Truncate_second (d / Second * Second),
    Int.mul_ediv_cancel _ hS]

theorem NewNumericDate_of_whole (t : Time) (h : t % Second = 0) : NewNumericDate t = t := by
  have h0 : ¬ ((1000000000 : Int) ≤ 0) := by decide
  simp only [Second] at h
  simp only [NewNumericDate, Truncate, TimePrecision, Second, h0, if_false, h]
  simp

theorem truncated_of_wholeSeconds (b : BaseClaims) (h : b.wholeSeconds) : b.truncated = b := by
  obtain ⟨h1, h2, h3⟩ := h
  obtain ⟨e, i, n, iss, sub, aud, jti⟩ := b
  simp only [BaseClaims.truncated, BaseClaims.mk.injEq, and_true, true_and]
  refine ⟨?_, ?_, ?_⟩
  · cases e with
    | none => rfl
    | some t => simp [NewNumericDate_of_whole t (h1 t rfl)]
  · cases i with
    | none => rfl
    | some t => simp [NewNumericDate_of_whole t (h2 t rfl)]
  · cases n with
    | none => rfl
    | some t => simp [NewNumericDate_of_whole t (h3 t rfl)]

/-! ## Lemmas on the JSON form of the claims -/

theorem decodeDate_of_get (o : JSONObject) (name : String) (d cur : Option NumericDate)
    (h : o.get name = d.map marshalNumericDate) (hc : d = none → cur = none) :
    decodeDate o name cur = .ok (d.map NewNumericDate) := by
  cases d with
  | none => simp [decodeDate, h, hc rfl]
  | some t => simp [decodeDate, h, marshalNumericDate, decode_marshal]

theorem decodeString_of_get (o : JSONObject) (name v cur : String)
    (h : o.get name = if v ≠ "" then some (.string v) else none) (hc : v = "" → cur = "") :
    decodeString o name cur = .ok v := by
  by_cases hv : v = ""
  · simp [decodeString, h, hv, hc hv]
  · simp [decodeString, h, hv]

theorem decodeString_of_get_some (o : JSONObject) (name v cur : String)
    (h : o.get name = some (.string v)) :
    decodeString o name cur = .ok v := by
  simp [decodeString, h]

theorem decodeStrings_of_get (o : JSONObject) (name : String) (v cur : List String)
    (h : o.get name = if v ≠ [] then some (.array v) else none) (hc : v = [] → cur = []) :
    decodeStrings o name cur = .ok v := by
  by_cases hv : v = []
  · simp [decodeStrings, h, hv, hc hv]
  · simp [decodeStrings, h, hv]

theorem get_marshal_base (b : BaseClaims) (tail : JSONObject)
    (htail : ∀ k, k ∈ ["exp", "iat", "nbf", "iss", "sub", "aud", "jti"] → tail.get k = none) :
    JSONObject.get (b.MarshalJSON ++ tail) "exp" = b.ExpiresAt.map marshalNumericDate ∧
    JSONObject.get (b.MarshalJSON ++ tail) "iat" = b.IssuedAt.map marshalNumericDate ∧
    JSONObject.get (b.MarshalJSON ++ tail) "nbf" = b.NotBefore.map marshalNumericDate ∧
    JSONObject.get (b.MarshalJSON ++ tail) "iss" =
      (if b.Issuer ≠ "" then some (.string b.Issuer) else none) ∧
    JSONObject.get (b.MarshalJSON ++ tail) "sub" =
      (if b.Subject ≠ "" then some (.string b.Subject) else none) ∧
    JSONObject.get (b.MarshalJSON ++ tail) "aud" =
      (if b.Audience ≠ [] then some (.array b.Audience) else none) ∧
    JSONObject.get (b.MarshalJSON ++ tail) "jti" =
      (if b.ID ≠ "" then some (.string b.ID) else none) := by
  have h1 := htail "exp" (by simp)
  have h2 := htail "iat" (by simp)
  have h3 := htail "nbf" (by simp)
  have h4 := htail "iss" (by simp)
  have h5 := htail "sub" (by simp)
  have h6 := htail "aud" (by simp)
  have h7 := htail "jti" (by simp)
  refine ⟨?_, ?_, ?_, ?_, ?_, ?_, ?_⟩
  · rw [get_append, h1]
    simp [BaseClaims.MarshalJSON, get_append, get_dateMember, get_stringMember,
      get_stringsMember]
  · rw [get_append, h2]
    simp [BaseClaims.MarshalJSON, get_append, get_dateMember, get_stringMember,
      get_stringsMember]
  · rw [get_append, h3]
    simp [BaseClaims.MarshalJSON, get_append, get_dateMember, get_stringMember,
      get_stringsMember]
  · rw [get_append, h4]
    simp [BaseClaims.MarshalJSON, get_append, get_dateMember, get_stringMember,
      get_stringsMember]
  · rw [get_append, h5]
    simp [BaseClaims.MarshalJSON, get_append, get_dateMember, get_stringMember,
      get_stringsMember]
  · rw [get_append, h6]
    simp [BaseClaims.MarshalJSON, get_append, get_dateMember, get_stringMember,
      get_stringsMember]
  · rw [get_append, h7]
    simp [BaseClaims.MarshalJSON, get_append, get_dateMember, get_stringMember,
      get_stringsMember]

theorem unmarshal_marshal_base (b cur : BaseClaims) (tail : JSONObject)
    (htail : ∀ k, k ∈ ["exp", "iat", "nbf", "iss", "sub", "aud", "jti"] → tail.get k = none)
    (hcur : cur = {} ∨ cur = b.truncated) :
    BaseClaims.UnmarshalJSON (b.MarshalJSON ++ tail) cur = .ok b.truncated := by
  obtain ⟨h1, h2, h3, h4, h5, h6, h7⟩ := get_marshal_base b tail htail
  have c1 : b.ExpiresAt = none → cur.ExpiresAt = none := by
    rcases hcur with h | h <;> subst h <;> intro hn <;> simp [BaseClaims.truncated, hn]
  have c2 : b.IssuedAt = none → cur.IssuedAt = none := by
    rcases hcur with h | h <;> subst h <;> intro hn <;> simp [BaseClaims.truncated, hn]
  have c3 : b.NotBefore = none → cur.NotBefore = none := by
    rcases hcur with h | h <;> subst h <;> intro hn <;> simp [BaseClaims.truncated, hn]
  have c4 : b.Issuer = "" → cur.Issuer = "" := by
    rcases hcur with h | h <;> subst h <;> intro hn <;> simp [BaseClaims.truncated, hn]
  have c5 : b.Subject = "" → cur.Subject = "" := by
    rcases hcur with h | h <;> subst h <;> intro hn <;> simp [BaseClaims.truncated, hn]
  have c6 : b.Audience = [] → cur.Audience = [] := by
    rcases hcur with h | h <;> subst h <;> intro hn <;> simp [BaseClaims.truncated, hn]
  have c7 : b.ID = "" → cur.ID = "" := by
    rcases hcur with h | h <;> subst h <;> intro hn <;> simp [BaseClaims.truncated, hn]
  simp only [BaseClaims.UnmarshalJSON, decodeDate_of_get _ _ _ _ h1 c1,
    decodeDate_of_get _ _ _ _ h2 c2, decodeDate_of_get _ _ _ _ h3 c3,
    decodeString_of_get _ _ _ _ h4 c4, decodeString_of_get _ _ _ _ h5 c5,
    decodeStrings_of_get _ _ _ _ h6 c6, decodeString_of_get _ _ _ _ h7 c7]
  rfl

theorem get_marshal_test (t : TestClaims) :
    JSONObject.get t.MarshalJSON "user_id" = some (.string t.UserID) ∧
    JSONObject.get t.MarshalJSON "email" = some (.string t.Email) ∧
    JSONObject.get t.MarshalJSON "type" = some (.string t.Type_) := by
  refine ⟨?_, ?_, ?_⟩ <;> simp [TestClaims.MarshalJSON, get_append, JSONObject.get]

theorem unmarshal_marshal_test (t cur : TestClaims) (hcur : cur = {} ∨ cur = t.truncated) :
    TestClaims.UnmarshalJSON t.MarshalJSON cur = .ok t.truncated := by
  obtain ⟨h1, h2, h3⟩ := get_marshal_test t
  have hb := unmarshal_marshal_base t.toBaseClaims cur.toBaseClaims
    [("user_id", .string t.UserID), ("email", .string t.Email), ("type", .string t.Type_)]
    (by
      intro k hk
      simp only [List.mem_cons, List.mem_singleton, List.not_mem_nil, or_false] at hk
      rcases hk with h | h | h | h | h | h | h <;> subst h <;> simp [JSONObject.get])
    (by rcases hcur with h | h <;> subst h <;> simp [TestClaims.truncated])
  simp only [TestClaims.UnmarshalJSON]
  rw [show t.MarshalJSON = t.toBaseClaims.MarshalJSON ++
    [("user_id", .string t.UserID), ("email", .string t.Email), ("type", .string t.Type_)]
    from rfl] at h1 h2 h3 ⊢
  simp only [hb, decodeString_of_get_some _ _ _ _ h1, decodeString_of_get_some _ _ _ _ h2,
    decodeString_of_get_some _ _ _ _ h3]
  rfl

/-! ## Lemmas on parsing -/

theorem ParseWithClaims_valid {C : Type} [Claims C] (hmac : HMACFn) (now : Time)
    (ts : TokenString) (c : C) (keyFunc : Token C → Except Error String)
    (h : (ParseWithClaims hmac now ts c keyFunc).err = none) :
    ∃ t, (ParseWithClaims hmac now ts c keyFunc).token = some t ∧ t.Valid = true ∧
      t.Claims = (ParseWithClaims hmac now ts c keyFunc).claims ∧
      validatorValidate now t.Claims = [] := by
  unfold ParseWithClaims at h ⊢
  repeat' split
  all_goals simp_all

theorem ParseToken_eq {C : Type} [Claims C] (hmac : HMACFn) (j : JWTManager) (now : Time)
    (ts : TokenString) (c : C) :
    j.ParseToken hmac now ts c =
      ((ParseWithClaims hmac now ts c j.keyFunc).claims,
        (ParseWithClaims hmac now ts c j.keyFunc).err.map .failedToParse) := by
  unfold JWTManager.ParseToken
  cases herr : (ParseWithClaims hmac now ts c j.keyFunc).err with
  | some e => simp [herr]
  | none =>
    obtain ⟨t, ht, hv, _, _⟩ := ParseWithClaims_valid hmac now ts c j.keyFunc herr
    simp [herr, ht, hv]

theorem ParseTokenWithoutValidation_eq {C : Type} [Claims C] (hmac : HMACFn) (j : JWTManager)
    (now : Time) (ts : TokenString) (c : C) :
    j.ParseTokenWithoutValidation hmac now ts c = j.ParseToken hmac now ts c := by
  rw [ParseToken_eq]
  unfold JWTManager.ParseTokenWithoutValidation
  cases herr : (ParseWithClaims hmac now ts c j.keyFunc).err with
  | some e => simp [herr]
  | none =>
    obtain ⟨t, ht, hv, _, _⟩ := ParseWithClaims_valid hmac now ts c j.keyFunc herr
    simp [herr, ht, hv]

theorem ParseWithClaims_signed {C : Type} [Claims C] (hmac : HMACFn) (j : JWTManager)
    (now : Time) (ts : TokenString) (p : JSONObject) (c c1 : C)
    (hs : ts.signedBy hmac j.secretKey = true) (hp : ts.payload = some p)
    (hu : Claims.UnmarshalJSON p c = .ok c1) :
    (ParseWithClaims hmac now ts c j.keyFunc).claims = c1 ∧
    (ParseWithClaims hmac now ts c j.keyFunc).err =
      (match validatorValidate now c1 with
       | [] => none
       | e :: es => some (.TokenInvalidClaims (e :: es))) := by
  cases ts with
  | notThreeSegments => simp [TokenString.signedBy] at hs
  | compact header payload signature =>
    cases header with
    | none => simp [TokenString.signedBy] at hs
    | some header =>
      cases payload with
      | none => simp [TokenString.signedBy] at hs
      | some payload =>
        cases signature with
        | none => simp [TokenString.signedBy] at hs
        | some sig =>
          simp only [TokenString.payload, Option.some.injEq] at hp
          subst hp
          simp only [TokenString.signedBy] at hs
          split at hs
          · rename_i alg halg
            split at hs
            · rename_i h hm
              have hsig := of_decide_eq_true hs
              simp only [ParseWithClaims, hu, halg, hm, JWTManager.keyFunc,
                SigningMethod.Verify, hsig, decide_True, if_true]
              cases validatorValidate now c1 <;> simp
            · simp at hs
          · simp at hs

theorem ParseToken_signed {C : Type} [Claims C] (hmac : HMACFn) (j : JWTManager)
    (now : Time) (ts : TokenString) (p : JSONObject) (c c1 : C)
    (hs : ts.signedBy hmac j.secretKey = true) (hp : ts.payload = some p)
    (hu : Claims.UnmarshalJSON p c = .ok c1) :
    j.ParseToken hmac now ts c =
      (c1, match validatorValidate now c1 with
           | [] => none
           | e :: es => some (.failedToParse (.TokenInvalidClaims (e :: es)))) := by
  obtain ⟨h1, h2⟩ := ParseWithClaims_signed hmac j now ts p c c1 hs hp hu
  rw [ParseToken_eq, h1, h2]
  cases validatorValidate now c1 <;> rfl

theorem GenerateToken_ok {C : Type} [Claims C] (hmac : HMACFn) (j : JWTManager) (c : C)
    (p : JSONObject) (hm : Claims.MarshalJSON c = .ok p) :
    j.GenerateToken hmac c = .ok (issuedToken hmac j.secretKey p) := by
  simp [JWTManager.GenerateToken, SignedString, hm, SigningMethod.Sign, issuedToken]

theorem issuedToken_signedBy (hmac : HMACFn) (key : String) (p : JSONObject) :
    (issuedToken hmac key p).signedBy hmac key = true := by
  simp [issuedToken, TokenString.signedBy, NewHeader, JSONObject.get, SigningMethod.Alg,
    GetSigningMethod]

theorem issuedToken_payload (hmac : HMACFn) (key : String) (p : JSONObject) :
    (issuedToken hmac key p).payload = some p := rfl

theorem validate_expired {C : Type} [Claims C] (now : Time) (c : C) (e : NumericDate)
    (he : Claims.GetExpirationTime c = .ok (some e)) (hpast : e ≤ now) :
    ∃ rest, validatorValidate now c = .TokenExpired :: rest := by
  have hb : Before now e = false := by simp [Before]; exact hpast
  simp [validatorValidate, verifyExpiresAt, he, hb]

theorem validate_notYet {C : Type} [Claims C] (now : Time) (c : C) (n : NumericDate)
    (hn : Claims.GetNotBefore c = .ok (some n)) (hfut : now < n) :
    ∃ e es, validatorValidate now c = e :: es ∧ ClaimError.TokenNotValidYet ∈ e :: es := by
  have hb : Before now n = true := by simp [Before]; exact hfut
  have hv : verifyNotBefore now c = [.TokenNotValidYet] := by
    simp [verifyNotBefore, hn, hb]
  cases hall : validatorValidate now c with
  | nil =>
    have : ClaimError.TokenNotValidYet ∈ validatorValidate now c := by
      simp [validatorValidate, hv]
    rw [hall] at this
    simp at this
  | cons e es =>
    refine ⟨e, es, rfl, ?_⟩
    rw [← hall]
    simp [validatorValidate, hv]

theorem failsWith_invalidClaims_expired (rest : List ClaimError) :
    failsWith (some (.failedToParse (.TokenInvalidClaims (.TokenExpired :: rest))))
      .ErrTokenExpired = true := by
  simp [failsWith, Error.Is]

theorem failsWith_invalidClaims_notYet (errs : List ClaimError)
    (h : ClaimError.TokenNotValidYet ∈ errs) :
    failsWith (some (.failedToParse (.TokenInvalidClaims errs))) .ErrTokenNotValidYet = true := by
  simp [failsWith, Error.Is, h]

theorem ParseToken_signed_expired {C : Type} [Claims C] (hmac : HMACFn) (j : JWTManager)
    (now : Time) (ts : TokenString) (p : JSONObject) (c c1 : C) (e : NumericDate)
    (hs : ts.signedBy hmac j.secretKey = true) (hp : ts.payload = some p)
    (hu : Claims.UnmarshalJSON p c = .ok c1)
    (he : Claims.GetExpirationTime c1 = .ok (some e)) (hpast : e ≤ now) :
    ∃ rest, j.ParseToken hmac now ts c =
      (c1, some (.failedToParse (.TokenInvalidClaims (.TokenExpired :: rest)))) := by
  obtain ⟨rest, hrest⟩ := validate_expired now c1 e he hpast
  refine ⟨rest, ?_⟩
  rw [ParseToken_signed hmac j now ts p c c1 hs hp hu, hrest]

theorem failsWith_raw_expired (rest : List ClaimError) :
    failsWith (some (.TokenInvalidClaims (.TokenExpired :: rest))) .ErrTokenExpired = true := by
  simp [failsWith, Error.Is]

theorem failsWith_raw_notYet (errs : List ClaimError)
    (h : ClaimError.TokenNotValidYet ∈ errs) :
    failsWith (some (.TokenInvalidClaims errs)) .ErrTokenNotValidYet = true := by
  simp [failsWith, Error.Is, h]

theorem IsTokenExpired_of_ParseToken_ok {C : Type} [Claims C] (hmac : HMACFn) (j : JWTManager)
    (now1 now2 now3 : Time) (ts : TokenString) (c : C)
    (h : (j.ParseToken hmac now1 ts c).2 = none) :
    j.IsTokenExpired hmac now1 now2 now3 ts c = ((j.ParseToken hmac now1 ts c).1, false, none) := by
  unfold JWTManager.IsTokenExpired
  cases hp : j.ParseToken hmac now1 ts c with
  | mk c1 err =>
    rw [hp] at h
    simp only at h
    subst h
    rfl

theorem IsTokenExpired_signed {C : Type} [Claims C] (hmac : HMACFn) (j : JWTManager)
    (now1 now2 now3 : Time) (ts : TokenString) (p : JSONObject) (c c1 : C)
    (hs : ts.signedBy hmac j.secretKey = true) (hp : ts.payload = some p)
    (hu : Claims.UnmarshalJSON p c = .ok c1) (hu2 : Claims.UnmarshalJSON p c1 = .ok c1)
    (e1 : ClaimError) (es1 : List ClaimError) (h1 : validatorValidate now1 c1 = e1 :: es1)
    (e2 : ClaimError) (es2 : List ClaimError) (h2 : validatorValidate now2 c1 = e2 :: es2) :
    j.IsTokenExpired hmac now1 now2 now3 ts c =
      (c1, true, some (.TokenInvalidClaims (e2 :: es2))) := by
  obtain ⟨hc, herr⟩ := ParseWithClaims_signed hmac j now2 ts p c1 c1 hs hp hu2
  rw [h2] at herr
  unfold JWTManager.IsTokenExpired
  rw [ParseToken_signed hmac j now1 ts p c c1 hs hp hu, h1]
  simp only [herr, hc]

theorem validate_test_nil (now : Time) (t : TestClaims)
    (hexp : ∀ e, t.ExpiresAt = some e → now < e)
    (hnbf : ∀ n, t.NotBefore = some n → n ≤ now) :
    validatorValidate now t = [] := by
  have h1 : verifyExpiresAt now t = [] := by
    show (match BaseClaims.GetExpirationTime t.toBaseClaims with
      | .error msg => [ClaimError.accessor msg]
      | .ok none => []
      | .ok (some exp) => if Before now exp then [] else [ClaimError.TokenExpired]) = []
    cases he : t.ExpiresAt with
    | none => simp [BaseClaims.GetExpirationTime, he]
    | some e => simp [BaseClaims.GetExpirationTime, he, Before, hexp e he]
  have h2 : verifyNotBefore now t = [] := by
    show (match BaseClaims.GetNotBefore t.toBaseClaims with
      | .error msg => [ClaimError.accessor msg]
      | .ok none => []
      | .ok (some nbf) => if !Before now nbf then [] else [ClaimError.TokenNotValidYet]) = []
    cases hn : t.NotBefore with
    | none => simp [BaseClaims.GetNotBefore, hn]
    | some n => simp [BaseClaims.GetNotBefore, hn, Before, hnbf n hn]
  show verifyExpiresAt now t ++ verifyNotBefore now t ++ [] = []
  rw [h1, h2]
  rfl

theorem truncated_test_of_wholeSeconds (t : TestClaims) (h : t.toBaseClaims.wholeSeconds) :
    t.truncated = t := by
  simp [TestClaims.truncated, truncated_of_wholeSeconds _ h]

theorem ParseToken_issued_test (hmac : HMACFn) (j : JWTManager) (now : Time) (t cur : TestClaims)
    (hcur : cur = {} ∨ cur = t.truncated) :
    j.ParseToken hmac now (issuedToken hmac j.secretKey t.MarshalJSON) cur =
      (t.truncated, match validatorValidate now t.truncated with
           | [] => none
           | e :: es => some (.failedToParse (.TokenInvalidClaims (e :: es)))) :=
  ParseToken_signed hmac j now _ t.MarshalJSON cur t.truncated (issuedToken_signedBy _ _ _) rfl
    (unmarshal_marshal_test t cur hcur)

theorem ParseWithClaims_nonHMAC {C : Type} [Claims C] (hmac : HMACFn) (j : JWTManager)
    (now : Time) (header : JSONObject) (payload : Option JSONObject)
    (signature : Option Signature) (c : C) (alg : String)
    (halg : header.get "alg" = some (.string alg))
    (hnon : ∀ h, GetSigningMethod alg ≠ some (.HMAC h)) :
    (ParseWithClaims hmac now (.compact (some header) payload signature) c j.keyFunc).err ≠ none ∧
    ∀ p s c1 m, payload = some p → signature = some s → Claims.UnmarshalJSON p c = .ok c1 →
      GetSigningMethod alg = some m →
      (ParseWithClaims hmac now (.compact (some header) payload signature) c j.keyFunc).err =
        some (.keyfunc (.unexpectedSigningMethod (some (.string alg)))) := by
  have hkey : ∀ (m : SigningMethod) (c1 : C), GetSigningMethod alg = some m →
      j.keyFunc (⟨header, c1, some m, false⟩ : Token C) =
        .error (.unexpectedSigningMethod (some (.string alg))) := by
    intro m c1 hm
    cases m with
    | HMAC h => exact absurd hm (hnon h)
    | _ => simp [JWTManager.keyFunc, halg]
  constructor
  · cases payload with
    | none => simp [ParseWithClaims]
    | some p =>
      cases hu : Claims.UnmarshalJSON p c with
      | error msg => simp [ParseWithClaims, hu]
      | ok c1 =>
        cases hm : GetSigningMethod alg with
        | none => simp [ParseWithClaims, hu, halg, hm]
        | some m =>
          cases signature with
          | none => simp [ParseWithClaims, hu, halg, hm]
          | some sig => simp [ParseWithClaims, hu, halg, hm, hkey m c1 hm]
  · intro p s c1 m hp hsig hu hm
    subst hp
    subst hsig
    simp [ParseWithClaims, hu, halg, hm, hkey m c1 hm]

theorem NewNumericDate_idem (t : Time) : NewNumericDate (NewNumericDate t) = NewNumericDate t := by
  apply NewNumericDate_of_whole
  simp only [NewNumericDate]
  rw [Truncate_second]
  exact Int.mul_emod_left _ _

theorem validate_truncated_nil (now : Time) (t : TestClaims)
    (hexp : ∀ e, t.ExpiresAt = some e → now < NewNumericDate e)
    (hnbf : ∀ n, t.NotBefore = some n → n ≤ now) :
    validatorValidate now t.truncated = [] := by
  apply validate_test_nil
  · intro e he
    cases hx : t.ExpiresAt with
    | none => simp [TestClaims.truncated, BaseClaims.truncated, hx] at he
    | some x =>
      simp [TestClaims.truncated, BaseClaims.truncated, hx] at he
      subst he
      exact hexp x hx
  · intro n hn
    cases hx : t.NotBefore with
    | none => simp [TestClaims.truncated, BaseClaims.truncated, hx] at hn
    | some x =>
      simp [TestClaims.truncated, BaseClaims.truncated, hx] at hn
      subst hn
      exact le_trans (NewNumericDate_le x) (hnbf x hx)

theorem GetTokenExpiration_issued_test (hmac : HMACFn) (j : JWTManager) (now : Time)
    (t : TestClaims) (e : NumericDate) (he : t.truncated.ExpiresAt = some e)
    (hv : validatorValidate now t.truncated = []) :
    j.GetTokenExpiration hmac now (issuedToken hmac j.secretKey t.MarshalJSON)
      ({} : TestClaims) = (t.truncated, e, none) := by
  unfold JWTManager.GetTokenExpiration
  rw [ParseToken_issued_test hmac j now t {} (Or.inl rfl), hv]
  show (match BaseClaims.GetExpirationTime t.truncated.toBaseClaims with
    | .ok (some expTime) => (t.truncated, expTime, none)
    | _ => (t.truncated, zeroTime, some Error.noExpirationTime)) = _
  simp [BaseClaims.GetExpirationTime, he]

theorem validate_notYet_only {C : Type} [Claims C] (now : Time) (c : C) (n : NumericDate)
    (hne : Claims.GetExpirationTime c = .ok none)
    (hn : Claims.GetNotBefore c = .ok (some n)) (hfut : now < n) :
    ∃ es, validatorValidate now c = .TokenNotValidYet :: es ∧ ClaimError.TokenExpired ∉ es := by
  have hb : Before now n = true := by simp [Before]; exact hfut
  cases hval : Claims.Validate c with
  | none => exact ⟨[], by simp [validatorValidate, verifyExpiresAt, verifyNotBefore, hne, hn, hb,
      hval], by simp⟩
  | some msg => exact ⟨[.custom msg], by simp [validatorValidate, verifyExpiresAt,
      verifyNotBefore, hne, hn, hb, hval], by simp⟩

theorem accessor_ok_of_validate_nil {C : Type} [Claims C] (now : Time) (c : C)
    (h : validatorValidate now c = []) :
    ∃ o, Claims.GetExpirationTime c = .ok o := by
  cases hg : Claims.GetExpirationTime c with
  | ok o => exact ⟨o, rfl⟩
  | error msg => simp [validatorValidate, verifyExpiresAt, hg] at h

theorem accessor_ok_of_ParseToken_ok {C : Type} [Claims C] (hmac : HMACFn) (j : JWTManager)
    (now : Time) (ts : TokenString) (c : C) (h : (j.ParseToken hmac now ts c).2 = none) :
    ∃ o, Claims.GetExpirationTime (j.ParseToken hmac now ts c).1 = .ok o := by
  rw [ParseToken_eq] at h ⊢
  have herr : (ParseWithClaims hmac now ts c j.keyFunc).err = none := by
    cases he : (ParseWithClaims hmac now ts c j.keyFunc).err with
    | none => rfl
    | some e => simp [he] at h
  obtain ⟨t, _, _, hc, hv⟩ := ParseWithClaims_valid hmac now ts c j.keyFunc herr
  rw [hc] at hv
  exact accessor_ok_of_validate_nil now _ hv

/-! ## Lemmas on decoding twice -/

theorem except_bind_ok {ε α β : Type} (x : Except ε α) (f : α → Except ε β) (r : β)
    (h : (x >>= f) = .ok r) : ∃ a, x = .ok a ∧ f a = .ok r := by
  cases x with
  | error e => cases h
  | ok a => exact ⟨a, rfl, h⟩

theorem decodeDate_idem (o : JSONObject) (name : String) (cur v : Option NumericDate)
    (h : decodeDate o name cur = .ok v) : decodeDate o name v = .ok v := by
  unfold decodeDate at h ⊢
  split at h <;> simp_all

theorem decodeString_idem (o : JSONObject) (name : String) (cur v : String)
    (h : decodeString o name cur = .ok v) : decodeString o name v = .ok v := by
  unfold decodeString at h ⊢
  split at h <;> simp_all

theorem decodeStrings_idem (o : JSONObject) (name : String) (cur v : List String)
    (h : decodeStrings o name cur = .ok v) : decodeStrings o name v = .ok v := by
  unfold decodeStrings at h ⊢
  split at h <;> simp_all

theorem BaseClaims_unmarshal_idem (o : JSONObject) (b b1 : BaseClaims)
    (h : BaseClaims.UnmarshalJSON o b = .ok b1) : BaseClaims.UnmarshalJSON o b1 = .ok b1 := by
  unfold BaseClaims.UnmarshalJSON at h
  obtain ⟨v1, h1, h⟩ := except_bind_ok _ _ _ h
  obtain ⟨v2, h2, h⟩ := except_bind_ok _ _ _ h
  obtain ⟨v3, h3, h⟩ := except_bind_ok _ _ _ h
  obtain ⟨v4, h4, h⟩ := except_bind_ok _ _ _ h
  obtain ⟨v5, h5, h⟩ := except_bind_ok _ _ _ h
  obtain ⟨v6, h6, h⟩ := except_bind_ok _ _ _ h
  obtain ⟨v7, h7, h⟩ := except_bind_ok _ _ _ h
  have hb : b1 =
      { ExpiresAt := v1, IssuedAt := v2, NotBefore := v3, Issuer := v4, Subject := v5,
        Audience := v6, ID := v7 } := by
    cases h
    rfl
  subst hb
  simp only [BaseClaims.UnmarshalJSON, decodeDate_idem _ _ _ _ h1, decodeDate_idem _ _ _ _ h2,
    decodeDate_idem _ _ _ _ h3, decodeString_idem _ _ _ _ h4, decodeString_idem _ _ _ _ h5,
    decodeStrings_idem _ _ _ _ h6, decodeString_idem _ _ _ _ h7]
  rfl

theorem TestClaims_unmarshal_idem (o : JSONObject) (t t1 : TestClaims)
    (h : TestClaims.UnmarshalJSON o t = .ok t1) : TestClaims.UnmarshalJSON o t1 = .ok t1 := by
  unfold TestClaims.UnmarshalJSON at h
  obtain ⟨b, hb, h⟩ := except_bind_ok _ _ _ h
  obtain ⟨v1, h1, h⟩ := except_bind_ok _ _ _ h
  obtain ⟨v2, h2, h⟩ := except_bind_ok _ _ _ h
  obtain ⟨v3, h3, h⟩ := except_bind_ok _ _ _ h
  have ht : t1 = { toBaseClaims := b, UserID := v1, Email := v2, Type_ := v3 } := by
    cases h
    rfl
  subst ht
  simp only [TestClaims.UnmarshalJSON, BaseClaims_unmarshal_idem _ _ _ hb,
    decodeString_idem _ _ _ _ h1, decodeString_idem _ _ _ _ h2, decodeString_idem _ _ _ _ h3]
  rfl

theorem ParseWithClaims_again {C : Type} [Claims C] (hmac : HMACFn) (now : Time)
    (ts : TokenString) (c : C) (keyFunc : Token C → Except Error String)
    (hidem : ∀ (p : JSONObject) (a b : C), Claims.UnmarshalJSON p a = .ok b →
      Claims.UnmarshalJSON p b = .ok b) :
    ParseWithClaims hmac now ts (ParseWithClaims hmac now ts c keyFunc).claims keyFunc =
      ParseWithClaims hmac now ts c keyFunc := by
  cases ts with
  | notThreeSegments => rfl
  | compact header payload signature =>
    cases header with
    | none => rfl
    | some header =>
      cases payload with
      | none => rfl
      | some p =>
        cases hu : Claims.UnmarshalJSON p c with
        | error msg =>
          have hc : (ParseWithClaims hmac now (.compact (some header) (some p) signature) c
              keyFunc).claims = c := by
            simp only [ParseWithClaims, hu]
          rw [hc]
        | ok c1 =>
          have hc : (ParseWithClaims hmac now (.compact (some header) (some p) signature) c
              keyFunc).claims = c1 := by
            simp only [ParseWithClaims, hu]
            repeat' split
            all_goals rfl
          rw [hc]
          simp only [ParseWithClaims, hu, hidem p c c1 hu]

theorem IsTokenExpired_fixed_clock {C : Type} [Claims C] (hmac : HMACFn) (j : JWTManager)
    (now now3 : Time) (ts : TokenString) (c : C)
    (hidem : ∀ (p : JSONObject) (a b : C), Claims.UnmarshalJSON p a = .ok b →
      Claims.UnmarshalJSON p b = .ok b) :
    j.IsTokenExpired hmac now now now3 ts c =
      match (ParseWithClaims hmac now ts c j.keyFunc).err with
      | none => ((ParseWithClaims hmac now ts c j.keyFunc).claims, false, none)
      | some e => ((ParseWithClaims hmac now ts c j.keyFunc).claims, true, some e) := by
  have hagain := ParseWithClaims_again hmac now ts c j.keyFunc hidem
  unfold JWTManager.IsTokenExpired
  rw [ParseToken_eq]
  cases herr : (ParseWithClaims hmac now ts c j.keyFunc).err with
  | none => rfl
  | some e =>
    simp only [Option.map_some']
    rw [hagain]
    simp only [herr]

/-! ## Lemmas on the keyed hash -/

theorem keyBytes_append (a b : String) : keyBytes (a ++ b) = keyBytes a ++ keyBytes b := by
  simp [keyBytes, String.toList]

theorem keyBlock_zero (hash : Hash → List Nat → List Nat) (h : Hash) (k : List Nat)
    (hk : k.length < h.BlockSize) : keyBlock hash h (k ++ [0]) = keyBlock hash h k := by
  have h1 : ¬ k.length + 1 > h.BlockSize := by omega
  have h2 : ¬ k.length > h.BlockSize := by omega
  have h3 : h.BlockSize - k.length = (h.BlockSize - (k.length + 1)) + 1 := by omega
  simp only [keyBlock, List.length_append, List.length_singleton, if_neg h1, if_neg h2,
    List.append_assoc]
  rw [h3, List.replicate_succ]
  rfl

theorem cryptoHMAC_zero (hash : Hash → List Nat → List Nat) (text : SigningString → List Nat)
    (h : Hash) (key : String) (m : SigningString) (hk : (keyBytes key).length < h.BlockSize) :
    cryptoHMAC hash text h (key ++ "\x00") m = cryptoHMAC hash text h key m := by
  have hz : keyBytes "\x00" = [0] := by decide
  simp only [cryptoHMAC, keyBytes_append, hz, keyBlock_zero hash h _ hk]

theorem ParseToken_other_key {C : Type} [Claims C] (hmac : HMACFn) (j : JWTManager)
    (now : Time) (key : String) (p : JSONObject) (c c1 : C)
    (hu : Claims.UnmarshalJSON p c = .ok c1)
    (hne : hmac .SHA256 key (NewHeader (.HMAC .SHA256), p) ≠
      hmac .SHA256 j.secretKey (NewHeader (.HMAC .SHA256), p)) :
    j.ParseToken hmac now (issuedToken hmac key p) c =
      (c1, some (.failedToParse .TokenSignatureInvalid)) := by
  have halg : JSONObject.get (NewHeader (.HMAC .SHA256)) "alg" = some (.string "HS256") := by
    decide
  have hm : GetSigningMethod "HS256" = some (.HMAC .SHA256) := by decide
  rw [ParseToken_eq]
  simp only [issuedToken, ParseWithClaims, hu, halg, hm, JWTManager.keyFunc,
    SigningMethod.Verify, hne, decide_False]
  rfl

/-! ## The claims -/

/-- C1 (defect of the code): for every token validly signed with the manager's
key whose payload decodes into the claims object and carries an expiration
before the current time, `ParseTokenWithoutValidation` fills the claims
object and returns an error that is `ErrTokenExpired`: it does validate the
expiry. -/
theorem C1_ParseTokenWithoutValidation_rejects_expired {C : Type} [Claims C] (hmac : HMACFn)
    (j : JWTManager) (now : Time) (ts : TokenString) (p : JSONObject) (c c1 : C)
    (e : NumericDate) (hs : ts.signedBy hmac j.secretKey = true) (hp : ts.payload = some p)
    (hu : Claims.UnmarshalJSON p c = .ok c1)
    (he : Claims.GetExpirationTime c1 = .ok (some e)) (hpast : e < now) :
    (j.ParseTokenWithoutValidation hmac now ts c).1 = c1 ∧
    failsWith (j.ParseTokenWithoutValidation hmac now ts c).2 .ErrTokenExpired = true := by
  obtain ⟨rest, hrest⟩ :=
    ParseToken_signed_expired hmac j now ts p c c1 e hs hp hu he (le_of_lt hpast)
  rw [ParseTokenWithoutValidation_eq, hrest]
  exact ⟨rfl, failsWith_invalidClaims_expired rest⟩

/-- C1, at the token issued for `expiredClaims` and read at second 2000. -/
theorem C1_ParseTokenWithoutValidation_rejects_expired_witness :
    (testManager.ParseTokenWithoutValidation exampleHMAC (2000 * Second)
      (issuedToken exampleHMAC testManager.secretKey expiredClaims.MarshalJSON)
      ({} : TestClaims)).1 = expiredClaims.truncated ∧
    failsWith (testManager.ParseTokenWithoutValidation exampleHMAC (2000 * Second)
      (issuedToken exampleHMAC testManager.secretKey expiredClaims.MarshalJSON)
      ({} : TestClaims)).2 .ErrTokenExpired = true :=
  C1_ParseTokenWithoutValidation_rejects_expired exampleHMAC testManager (2000 * Second)
    (issuedToken exampleHMAC testManager.secretKey expiredClaims.MarshalJSON)
    expiredClaims.MarshalJSON {} expiredClaims.truncated (NewNumericDate (1000 * Second))
    (issuedToken_signedBy _ _ _) rfl (unmarshal_marshal_test expiredClaims {} (Or.inl rfl))
    rfl (by decide)

/-- C2 (defect of the code): for every token validly signed with the
manager's key whose payload decodes into the claims object (and, decoded a
second time into the object it has filled, leaves it as it is) and carries an
expiration before the time of the first parse, `IsTokenExpired` returns true
together with a non-nil error that is `ErrTokenExpired`, not `(true, nil)`:
its second parse validates the expiry again and fails as the first did. -/
theorem C2_IsTokenExpired_expired_returns_error {C : Type} [Claims C] (hmac : HMACFn)
    (j : JWTManager) (now1 now2 now3 : Time) (ts : TokenString) (p : JSONObject) (c c1 : C)
    (e : NumericDate) (hs : ts.signedBy hmac j.secretKey = true) (hp : ts.payload = some p)
    (hu : Claims.UnmarshalJSON p c = .ok c1) (hu2 : Claims.UnmarshalJSON p c1 = .ok c1)
    (he : Claims.GetExpirationTime c1 = .ok (some e)) (hpast : e < now1)
    (hclock : now1 ≤ now2) :
    (j.IsTokenExpired hmac now1 now2 now3 ts c).1 = c1 ∧
    (j.IsTokenExpired hmac now1 now2 now3 ts c).2.1 = true ∧
    (j.IsTokenExpired hmac now1 now2 now3 ts c).2.2 ≠ none ∧
    failsWith (j.IsTokenExpired hmac now1 now2 now3 ts c).2.2 .ErrTokenExpired = true := by
  obtain ⟨r1, h1⟩ := validate_expired now1 c1 e he (le_of_lt hpast)
  obtain ⟨r2, h2⟩ := validate_expired now2 c1 e he (le_trans (le_of_lt hpast) hclock)
  rw [IsTokenExpired_signed hmac j now1 now2 now3 ts p c c1 hs hp hu hu2 _ _ h1 _ _ h2]
  exact ⟨rfl, rfl, by simp, failsWith_raw_expired r2⟩

/-- C2, at the token issued for `expiredClaims` and read at second 2000. -/
theorem C2_IsTokenExpired_expired_returns_error_witness :
    (testManager.IsTokenExpired exampleHMAC (2000 * Second) (2000 * Second) (2000 * Second)
      (issuedToken exampleHMAC testManager.secretKey expiredClaims.MarshalJSON)
      ({} : TestClaims)).1 = expiredClaims.truncated ∧
    (testManager.IsTokenExpired exampleHMAC (2000 * Second) (2000 * Second) (2000 * Second)
      (issuedToken exampleHMAC testManager.secretKey expiredClaims.MarshalJSON)
      ({} : TestClaims)).2.1 = true ∧
    (testManager.IsTokenExpired exampleHMAC (2000 * Second) (2000 * Second) (2000 * Second)
      (issuedToken exampleHMAC testManager.secretKey expiredClaims.MarshalJSON)
      ({} : TestClaims)).2.2 ≠ none ∧
    failsWith (testManager.IsTokenExpired exampleHMAC (2000 * Second) (2000 * Second)
      (2000 * Second)
      (issuedToken exampleHMAC testManager.secretKey expiredClaims.MarshalJSON)
      ({} : TestClaims)).2.2 .ErrTokenExpired = true :=
  C2_IsTokenExpired_expired_returns_error exampleHMAC testManager (2000 * Second)
    (2000 * Second) (2000 * Second)
    (issuedToken exampleHMAC testManager.secretKey expiredClaims.MarshalJSON)
    expiredClaims.MarshalJSON {} expiredClaims.truncated (NewNumericDate (1000 * Second))
    (issuedToken_signedBy _ _ _) rfl (unmarshal_marshal_test expiredClaims {} (Or.inl rfl))
    (unmarshal_marshal_test expiredClaims expiredClaims.truncated (Or.inr rfl))
    rfl (by decide) (le_refl _)

/-- C3 as stated fails at two inputs.  Claims with no expiration and a
not-before at second 2000, issued and parsed at second 1000: `ParseToken`
returns an error.  Claims whose expiration lies half a second after second
1000, issued and parsed at second 0: `ParseToken` succeeds and the parsed
expiration is second 1000, not the expiration of the claims. -/
theorem C3_roundtrip_counterexample :
    (notYetClaims.ExpiresAt = none ∧
      testManager.GenerateToken exampleHMAC notYetClaims =
        .ok (issuedToken exampleHMAC testManager.secretKey notYetClaims.MarshalJSON) ∧
      (testManager.ParseToken exampleHMAC (1000 * Second)
        (issuedToken exampleHMAC testManager.secretKey notYetClaims.MarshalJSON)
        ({} : TestClaims)).2 =
        some (.failedToParse (.TokenInvalidClaims [.TokenNotValidYet]))) ∧
    (halfSecondClaims.ExpiresAt = some (1000 * Second + 500000000) ∧
      testManager.GenerateToken exampleHMAC halfSecondClaims =
        .ok (issuedToken exampleHMAC testManager.secretKey halfSecondClaims.MarshalJSON) ∧
      (testManager.ParseToken exampleHMAC 0
        (issuedToken exampleHMAC testManager.secretKey halfSecondClaims.MarshalJSON)
        ({} : TestClaims)).2 = none ∧
      (testManager.ParseToken exampleHMAC 0
        (issuedToken exampleHMAC testManager.secretKey halfSecondClaims.MarshalJSON)
        ({} : TestClaims)).1.ExpiresAt = some (1000 * Second) ∧
      (testManager.ParseToken exampleHMAC 0
        (issuedToken exampleHMAC testManager.secretKey halfSecondClaims.MarshalJSON)
        ({} : TestClaims)).1 ≠ halfSecondClaims) := by
  refine ⟨⟨rfl, rfl, by decide⟩, rfl, rfl, by decide, by decide, by decide⟩

/-- C3 (amended): for every key and every `TestClaims` object whose instants
are whole seconds, that has no expiration or an expiration after the current
time, and no not-before or a not-before not after the current time,
`GenerateToken` returns a token, and `ParseToken` of that token into an empty
claims object returns no error and leaves the object equal to the issued
claims, in every registered field and every extension field. -/
theorem C3_roundtrip (hmac : HMACFn) (j : JWTManager) (now : Time) (c : TestClaims)
    (hw : c.toBaseClaims.wholeSeconds)
    (hexp : ∀ e, c.ExpiresAt = some e → now < e)
    (hnbf : ∀ n, c.NotBefore = some n → n ≤ now) :
    j.GenerateToken hmac c = .ok (issuedToken hmac j.secretKey c.MarshalJSON) ∧
    j.ParseToken hmac now (issuedToken hmac j.secretKey c.MarshalJSON) ({} : TestClaims) =
      (c, none) := by
  refine ⟨GenerateToken_ok hmac j c c.MarshalJSON rfl, ?_⟩
  rw [ParseToken_issued_test hmac j now c {} (Or.inl rfl),
    truncated_test_of_wholeSeconds c hw, validate_test_nil now c hexp hnbf]

/-- C3 (amended), at the claims of the tests with an expiration at second
5000, parsed at second 2000. -/
theorem C3_roundtrip_witness :
    testManager.GenerateToken exampleHMAC freshClaims =
      .ok (issuedToken exampleHMAC testManager.secretKey freshClaims.MarshalJSON) ∧
    testManager.ParseToken exampleHMAC (2000 * Second)
      (issuedToken exampleHMAC testManager.secretKey freshClaims.MarshalJSON)
      ({} : TestClaims) = (freshClaims, none) :=
  C3_roundtrip exampleHMAC testManager (2000 * Second) freshClaims
    (by
      refine ⟨?_, ?_, ?_⟩ <;> intro t ht <;> simp [freshClaims] at ht
      subst ht
      decide)
    (by
      intro e he
      simp [freshClaims] at he
      subst he
      decide)
    (by
      intro n hn
      simp [freshClaims] at hn)

/-- C4 as stated fails at a token whose header names RS256 and whose payload
segment does not decode: `ParseToken` and `ParseTokenWithoutValidation`
reject it with the malformed-token error of the decoder, which is not the
unexpected-signing-method error of the key callback; the callback is never
called. -/
theorem C4_algorithm_confusion_counterexample :
    rs256Undecodable.alg = some "RS256" ∧
    (testManager.ParseToken exampleHMAC 0 rs256Undecodable ({} : TestClaims)).2 =
      some (.failedToParse (.TokenMalformed "could not base64 decode claim")) ∧
    (testManager.ParseTokenWithoutValidation exampleHMAC 0 rs256Undecodable
      ({} : TestClaims)).2 =
      some (.failedToParse (.TokenMalformed "could not base64 decode claim")) ∧
    (testManager.ParseToken exampleHMAC 0 rs256Undecodable ({} : TestClaims)).2 ≠
      some (.failedToParse (.keyfunc (.unexpectedSigningMethod (some (.string "RS256"))))) := by
  refine ⟨by decide, by decide, by decide, by decide⟩

/-- C4 (amended): for every token whose header declares an algorithm outside
the HMAC family, whatever its payload and signature segments contain, both
`ParseToken` and `ParseTokenWithoutValidation` return an error; when the
payload segment decodes into the claims object, the signature segment decodes
and the algorithm is a registered one, that error is the
unexpected-signing-method error of the key callback (wrapped by the parser
and by `failed to parse token`). -/
theorem C4_algorithm_confusion {C : Type} [Claims C] (hmac : HMACFn) (j : JWTManager)
    (now : Time) (header : JSONObject) (payload : Option JSONObject)
    (signature : Option Signature) (c : C) (alg : String)
    (halg : header.get "alg" = some (.string alg))
    (hnon : ∀ h, GetSigningMethod alg ≠ some (.HMAC h)) :
    (j.ParseToken hmac now (.compact (some header) payload signature) c).2 ≠ none ∧
    (j.ParseTokenWithoutValidation hmac now (.compact (some header) payload signature) c).2
      ≠ none ∧
    ∀ p s c1 m, payload = some p → signature = some s → Claims.UnmarshalJSON p c = .ok c1 →
      GetSigningMethod alg = some m →
      (j.ParseToken hmac now (.compact (some header) payload signature) c).2 =
        some (.failedToParse (.keyfunc (.unexpectedSigningMethod (some (.string alg))))) ∧
      (j.ParseTokenWithoutValidation hmac now (.compact (some header) payload signature) c).2 =
        some (.failedToParse (.keyfunc (.unexpectedSigningMethod (some (.string alg))))) := by
  obtain ⟨h1, h2⟩ := ParseWithClaims_nonHMAC hmac j now header payload signature c alg halg hnon
  have hne : (j.ParseToken hmac now (.compact (some header) payload signature) c).2 ≠ none := by
    rw [ParseToken_eq]
    cases herr : (ParseWithClaims hmac now (.compact (some header) payload signature) c
      j.keyFunc).err with
    | none => exact absurd herr h1
    | some e => simp
  refine ⟨hne, ?_, ?_⟩
  · rw [ParseTokenWithoutValidation_eq]
    exact hne
  · intro p s c1 m hp hsig hu hm
    have h := h2 p s c1 m hp hsig hu hm
    rw [ParseTokenWithoutValidation_eq, ParseToken_eq, h]
    exact ⟨rfl, rfl⟩

/-- C4 (amended), at the RS256 token with an empty payload object. -/
theorem C4_algorithm_confusion_witness :
    (testManager.ParseToken exampleHMAC 0 rs256Token ({} : TestClaims)).2 =
      some (.failedToParse (.keyfunc (.unexpectedSigningMethod (some (.string "RS256"))))) ∧
    (testManager.ParseTokenWithoutValidation exampleHMAC 0 rs256Token ({} : TestClaims)).2 =
      some (.failedToParse (.keyfunc (.unexpectedSigningMethod (some (.string "RS256"))))) :=
  (C4_algorithm_confusion exampleHMAC testManager 0
    [("alg", .string "RS256"), ("typ", .string "JWT")] (some []) (some []) ({} : TestClaims)
    "RS256" (by decide) (by intro h; cases h <;> decide)).2.2 [] [] {} (.RSA .SHA256) rfl rfl rfl
    (by decide)

/-- C5: for every token validly signed with the manager's key whose payload
decodes into the claims object: if the claims carry an expiration before the
current time, `ParseToken` returns a non-nil error that is `ErrTokenExpired`;
if they carry a not-before after the current time, `ParseToken` returns a
non-nil error that is `ErrTokenNotValidYet`. -/
theorem C5_ParseToken_time_bounds {C : Type} [Claims C] (hmac : HMACFn) (j : JWTManager)
    (now : Time) (ts : TokenString) (p : JSONObject) (c c1 : C)
    (hs : ts.signedBy hmac j.secretKey = true) (hp : ts.payload = some p)
    (hu : Claims.UnmarshalJSON p c = .ok c1) :
    (∀ e, Claims.GetExpirationTime c1 = .ok (some e) → e < now →
      (j.ParseToken hmac now ts c).2 ≠ none ∧
      failsWith (j.ParseToken hmac now ts c).2 .ErrTokenExpired = true) ∧
    (∀ n, Claims.GetNotBefore c1 = .ok (some n) → now < n →
      (j.ParseToken hmac now ts c).2 ≠ none ∧
      failsWith (j.ParseToken hmac now ts c).2 .ErrTokenNotValidYet = true) := by
  constructor
  · intro e he hpast
    obtain ⟨rest, hrest⟩ :=
      ParseToken_signed_expired hmac j now ts p c c1 e hs hp hu he (le_of_lt hpast)
    rw [hrest]
    exact ⟨by simp, failsWith_invalidClaims_expired rest⟩
  · intro n hn hfut
    obtain ⟨e, es, hv, hmem⟩ := validate_notYet now c1 n hn hfut
    rw [ParseToken_signed hmac j now ts p c c1 hs hp hu, hv]
    exact ⟨by simp, failsWith_invalidClaims_notYet (e :: es) hmem⟩

/-- C5, at the token issued for `expiredClaims` read at second 2000 and at the
token issued for `notYetClaims` read at second 1000. -/
theorem C5_ParseToken_time_bounds_witness :
    ((testManager.ParseToken exampleHMAC (2000 * Second)
        (issuedToken exampleHMAC testManager.secretKey expiredClaims.MarshalJSON)
        ({} : TestClaims)).2 ≠ none ∧
      failsWith (testManager.ParseToken exampleHMAC (2000 * Second)
        (issuedToken exampleHMAC testManager.secretKey expiredClaims.MarshalJSON)
        ({} : TestClaims)).2 .ErrTokenExpired = true) ∧
    ((testManager.ParseToken exampleHMAC (1000 * Second)
        (issuedToken exampleHMAC testManager.secretKey notYetClaims.MarshalJSON)
        ({} : TestClaims)).2 ≠ none ∧
      failsWith (testManager.ParseToken exampleHMAC (1000 * Second)
        (issuedToken exampleHMAC testManager.secretKey notYetClaims.MarshalJSON)
        ({} : TestClaims)).2 .ErrTokenNotValidYet = true) :=
  ⟨(C5_ParseToken_time_bounds exampleHMAC testManager (2000 * Second)
      (issuedToken exampleHMAC testManager.secretKey expiredClaims.MarshalJSON)
      expiredClaims.MarshalJSON {} expiredClaims.truncated
      (issuedToken_signedBy _ _ _) rfl
      (unmarshal_marshal_test expiredClaims {} (Or.inl rfl))).1
      (NewNumericDate (1000 * Second)) rfl (by decide),
   (C5_ParseToken_time_bounds exampleHMAC testManager (1000 * Second)
      (issuedToken exampleHMAC testManager.secretKey notYetClaims.MarshalJSON)
      notYetClaims.MarshalJSON {} notYetClaims.truncated
      (issuedToken_signedBy _ _ _) rfl
      (unmarshal_marshal_test notYetClaims {} (Or.inl rfl))).2
      (NewNumericDate (2000 * Second)) rfl (by decide)⟩

/-- C7: for every claims object whose type has no `SetExpiry` method (does not
satisfy `CustomClaims`) and every duration, `GenerateTokenWithExpiry` leaves
the claims object unchanged and returns exactly what `GenerateToken` returns
for it. -/
theorem C7_GenerateTokenWithExpiry_without_capability {C : Type} [Claims C] (hmac : HMACFn)
    (j : JWTManager) (now : Time) (claims : C) (expiry : Duration)
    (hno : (Claims.SetExpiry : Option (Time → Duration → C → C)) = none) :
    j.GenerateTokenWithExpiry hmac now claims expiry = (claims, j.GenerateToken hmac claims) := by
  simp only [JWTManager.GenerateTokenWithExpiry, JWTManager.GenerateToken, hno]

/-- C7, at a `jwt.RegisteredClaims` object and a duration of fifteen minutes. -/
theorem C7_GenerateTokenWithExpiry_without_capability_witness :
    testManager.GenerateTokenWithExpiry exampleHMAC (1000 * Second)
      ({ Subject := "user123", ExpiresAt := some (1200 * Second) } : RegisteredClaims)
      (900 * Second) =
    (({ Subject := "user123", ExpiresAt := some (1200 * Second) } : RegisteredClaims),
      testManager.GenerateToken exampleHMAC
        ({ Subject := "user123", ExpiresAt := some (1200 * Second) } : RegisteredClaims)) :=
  C7_GenerateTokenWithExpiry_without_capability exampleHMAC testManager (1000 * Second)
    ({ Subject := "user123", ExpiresAt := some (1200 * Second) } : RegisteredClaims)
    (900 * Second) rfl

/-- C6: for every `TestClaims` object (which has `SetExpiry`, through the
embedded `BaseClaims`), whatever expiration it had, and every duration `d` of
at least one second, `GenerateTokenWithExpiry` overwrites the expiration with
`now + d` truncated to whole seconds and returns the token of the updated
claims; that instant `e` satisfies `now + d - 1s < e ≤ now + d`; and
`GetTokenExpiration` on the token, with the same manager, returns `e` with a
nil error when read at once with no not-before after `now`, and more
generally when read at any time up to `now + d - 1s` with no not-before
after the time of reading. -/
theorem C6_GenerateTokenWithExpiry_sets_expiry (hmac : HMACFn) (j : JWTManager) (now : Time)
    (c : TestClaims) (d : Duration) (hd : Second ≤ d) :
    (j.GenerateTokenWithExpiry hmac now c d).1 = c.SetExpiry now d ∧
    (c.SetExpiry now d).ExpiresAt = some (NewNumericDate (Add now d)) ∧
    (j.GenerateTokenWithExpiry hmac now c d).2 =
      .ok (issuedToken hmac j.secretKey (c.SetExpiry now d).MarshalJSON) ∧
    now + d - Second < NewNumericDate (Add now d) ∧ NewNumericDate (Add now d) ≤ now + d ∧
    ((∀ n, c.NotBefore = some n → n ≤ now) →
      (j.GetTokenExpiration hmac now
        (issuedToken hmac j.secretKey (c.SetExpiry now d).MarshalJSON) ({} : TestClaims)).2 =
        (NewNumericDate (Add now d), none)) ∧
    (∀ later, later ≤ now + d - Second → (∀ n, c.NotBefore = some n → n ≤ later) →
      (j.GetTokenExpiration hmac later
        (issuedToken hmac j.secretKey (c.SetExpiry now d).MarshalJSON) ({} : TestClaims)).2 =
        (NewNumericDate (Add now d), none)) := by
  have hgt : now + d - Second < NewNumericDate (Add now d) := NewNumericDate_gt (now + d)
  have hle : NewNumericDate (Add now d) ≤ now + d := NewNumericDate_le (now + d)
  have hexp : (c.SetExpiry now d).ExpiresAt = some (NewNumericDate (Add now d)) := rfl
  have hnb : (c.SetExpiry now d).NotBefore = c.NotBefore := rfl
  have hread : ∀ later, later ≤ now + d - Second → (∀ n, c.NotBefore = some n → n ≤ later) →
      (j.GetTokenExpiration hmac later
        (issuedToken hmac j.secretKey (c.SetExpiry now d).MarshalJSON) ({} : TestClaims)).2 =
        (NewNumericDate (Add now d), none) := by
    intro later hlater hnbf
    have hv : validatorValidate later (c.SetExpiry now d).truncated = [] := by
      apply validate_truncated_nil
      · intro e he
        rw [hexp] at he
        simp only [Option.some.injEq] at he
        subst he
        rw [NewNumericDate_idem]
        exact lt_of_le_of_lt hlater hgt
      · intro n hn
        rw [hnb] at hn
        exact hnbf n hn
    have he : (c.SetExpiry now d).truncated.ExpiresAt = some (NewNumericDate (Add now d)) := by
      show Option.map NewNumericDate (c.SetExpiry now d).ExpiresAt = _
      rw [hexp]
      simp [NewNumericDate_idem]
    rw [GetTokenExpiration_issued_test hmac j later (c.SetExpiry now d) _ he hv]
  refine ⟨rfl, hexp, ?_, hgt, hle, ?_, hread⟩
  · exact GenerateToken_ok hmac j (c.SetExpiry now d) _ rfl
  · intro hnbf
    exact hread now (by linarith) hnbf

/-- C6, at the test claims of `TestJWTManager_GenerateTokenWithExpiry` with a
stale expiration, issued 0.3 s after second 1000 for fifteen minutes. -/
theorem C6_GenerateTokenWithExpiry_sets_expiry_witness :
    (testManager.GenerateTokenWithExpiry exampleHMAC (1000 * Second + 300000000) expiredClaims
      (900 * Second)).1.ExpiresAt = some (1900 * Second) ∧
    (testManager.GetTokenExpiration exampleHMAC (1000 * Second + 300000000)
      (issuedToken exampleHMAC testManager.secretKey
        (expiredClaims.SetExpiry (1000 * Second + 300000000) (900 * Second)).MarshalJSON)
      ({} : TestClaims)).2 = (1900 * Second, none) := by
  have h := C6_GenerateTokenWithExpiry_sets_expiry exampleHMAC testManager
    (1000 * Second + 300000000) expiredClaims (900 * Second) (by decide)
  refine ⟨?_, ?_⟩
  · rw [h.1, h.2.1]
    decide
  · rw [h.2.2.2.2.2.1 (by intro n hn; simp [expiredClaims] at hn)]
    decide

/-- C8 (defect of the code): for every token validly signed with the
manager's key whose payload decodes into the claims object (and, decoded a
second time into the object it has filled, leaves it as it is), with no
expiration and a not-before after the times of both parses, `IsTokenExpired`
returns true together with a non-nil error that is `ErrTokenNotValidYet` (and
is not `ErrTokenExpired`), not `(false, nil)`: the fallback parse validates
the not-before again. -/
theorem C8_IsTokenExpired_no_exp_future_nbf {C : Type} [Claims C] (hmac : HMACFn)
    (j : JWTManager) (now1 now2 now3 : Time) (ts : TokenString) (p : JSONObject) (c c1 : C)
    (n : NumericDate) (hs : ts.signedBy hmac j.secretKey = true) (hp : ts.payload = some p)
    (hu : Claims.UnmarshalJSON p c = .ok c1) (hu2 : Claims.UnmarshalJSON p c1 = .ok c1)
    (hne : Claims.GetExpirationTime c1 = .ok none)
    (hn : Claims.GetNotBefore c1 = .ok (some n)) (hfut1 : now1 < n) (hfut2 : now2 < n) :
    (j.IsTokenExpired hmac now1 now2 now3 ts c).1 = c1 ∧
    (j.IsTokenExpired hmac now1 now2 now3 ts c).2.1 = true ∧
    (j.IsTokenExpired hmac now1 now2 now3 ts c).2.2 ≠ none ∧
    failsWith (j.IsTokenExpired hmac now1 now2 now3 ts c).2.2 .ErrTokenNotValidYet = true ∧
    failsWith (j.IsTokenExpired hmac now1 now2 now3 ts c).2.2 .ErrTokenExpired = false := by
  obtain ⟨es1, h1, _⟩ := validate_notYet_only now1 c1 n hne hn hfut1
  obtain ⟨es2, h2, hno⟩ := validate_notYet_only now2 c1 n hne hn hfut2
  rw [IsTokenExpired_signed hmac j now1 now2 now3 ts p c c1 hs hp hu hu2 _ _ h1 _ _ h2]
  refine ⟨rfl, rfl, by simp, failsWith_raw_notYet _ (by simp), ?_⟩
  simp [failsWith, Error.Is, hno]

/-- C8, at the token issued for `notYetClaims` and read at second 1000. -/
theorem C8_IsTokenExpired_no_exp_future_nbf_witness :
    notYetClaims.ExpiresAt = none ∧
    (testManager.IsTokenExpired exampleHMAC (1000 * Second) (1000 * Second) (1000 * Second)
      (issuedToken exampleHMAC testManager.secretKey notYetClaims.MarshalJSON)
      ({} : TestClaims)).2.1 = true ∧
    (testManager.IsTokenExpired exampleHMAC (1000 * Second) (1000 * Second) (1000 * Second)
      (issuedToken exampleHMAC testManager.secretKey notYetClaims.MarshalJSON)
      ({} : TestClaims)).2.2 ≠ none :=
  have h := C8_IsTokenExpired_no_exp_future_nbf exampleHMAC testManager (1000 * Second)
    (1000 * Second) (1000 * Second)
    (issuedToken exampleHMAC testManager.secretKey notYetClaims.MarshalJSON)
    notYetClaims.MarshalJSON {} notYetClaims.truncated (NewNumericDate (2000 * Second))
    (issuedToken_signedBy _ _ _) rfl (unmarshal_marshal_test notYetClaims {} (Or.inl rfl))
    (unmarshal_marshal_test notYetClaims notYetClaims.truncated (Or.inr rfl))
    rfl rfl (by decide) (by decide)
  ⟨rfl, h.2.1, h.2.2.1⟩

/-- C9 as stated fails at claims whose expiration lies half a second after
second 1000, issued and checked 0.2 s after second 1000: the expiration is
strictly in the future and there is no not-before, the token carries the
expiration truncated to second 1000, and `IsTokenExpired` returns true with
an error. -/
theorem C9_IsTokenExpired_counterexample :
    halfSecondClaims.ExpiresAt = some (1000 * Second + 500000000) ∧
    Before (1000 * Second + 200000000) (1000 * Second + 500000000) = true ∧
    halfSecondClaims.NotBefore = none ∧
    testManager.GenerateToken exampleHMAC halfSecondClaims =
      .ok (issuedToken exampleHMAC testManager.secretKey halfSecondClaims.MarshalJSON) ∧
    (testManager.IsTokenExpired exampleHMAC (1000 * Second + 200000000)
      (1000 * Second + 200000000) (1000 * Second + 200000000)
      (issuedToken exampleHMAC testManager.secretKey halfSecondClaims.MarshalJSON)
      ({} : TestClaims)).2 = (true, some (.TokenInvalidClaims [.TokenExpired])) := by
  refine ⟨rfl, by decide, rfl, rfl, by decide⟩

/-- C9 (amended): for every key and every `TestClaims` object whose
expiration, truncated to whole seconds as the token carries it, is strictly
after the current time, and whose not-before, if any, is not after the
current time, `IsTokenExpired` applied to `GenerateToken(claims)` with the
same manager returns `(false, nil)`; and for every claims type, token and
claims object, whenever `ParseToken` succeeds, `IsTokenExpired` on the same
input returns `(false, nil)`. -/
theorem C9_IsTokenExpired_valid_token (hmac : HMACFn) (j : JWTManager) (now1 now2 now3 : Time) :
    (∀ (c : TestClaims) (e : NumericDate), c.ExpiresAt = some e → now1 < NewNumericDate e →
      (∀ n, c.NotBefore = some n → n ≤ now1) →
      j.GenerateToken hmac c = .ok (issuedToken hmac j.secretKey c.MarshalJSON) ∧
      (j.IsTokenExpired hmac now1 now2 now3 (issuedToken hmac j.secretKey c.MarshalJSON)
        ({} : TestClaims)).2 = (false, none)) ∧
    (∀ (C : Type) [Claims C] (ts : TokenString) (c : C),
      (j.ParseToken hmac now1 ts c).2 = none →
      (j.IsTokenExpired hmac now1 now2 now3 ts c).2 = (false, none)) := by
  have hgen : ∀ (C : Type) [Claims C] (ts : TokenString) (c : C),
      (j.ParseToken hmac now1 ts c).2 = none →
      (j.IsTokenExpired hmac now1 now2 now3 ts c).2 = (false, none) := by
    intro C _ ts c h
    rw [IsTokenExpired_of_ParseToken_ok hmac j now1 now2 now3 ts c h]
  refine ⟨?_, hgen⟩
  intro c e he hfut hnbf
  refine ⟨GenerateToken_ok hmac j c c.MarshalJSON rfl, ?_⟩
  apply hgen
  have hv : validatorValidate now1 c.truncated = [] := by
    apply validate_truncated_nil _ _ _ hnbf
    intro e1 he1
    rw [he] at he1
    simp only [Option.some.injEq] at he1
    subst he1
    exact hfut
  rw [ParseToken_issued_test hmac j now1 c {} (Or.inl rfl), hv]

/-- C9 (amended), at the claims of the tests with an expiration at second
5000, checked at second 2000. -/
theorem C9_IsTokenExpired_valid_token_witness :
    (testManager.IsTokenExpired exampleHMAC (2000 * Second) (2000 * Second) (2000 * Second)
      (issuedToken exampleHMAC testManager.secretKey freshClaims.MarshalJSON)
      ({} : TestClaims)).2 = (false, none) :=
  ((C9_IsTokenExpired_valid_token exampleHMAC testManager (2000 * Second) (2000 * Second)
    (2000 * Second)).1 freshClaims (5000 * Second) rfl (by decide)
    (by intro n hn; simp [freshClaims] at hn)).2

/-- C10: `GetTokenExpiration` returns an error exactly when `ParseToken` fails
on the token or `ParseToken` succeeds and the claims carry no expiration.  In
the first case it returns the error of `ParseToken` unchanged with the zero
instant, in the second the no-expiration error with the zero instant; in
every other case it returns the expiration of the parsed claims with a nil
error.  The claims object is left as `ParseToken` leaves it. -/
theorem C10_GetTokenExpiration_cases {C : Type} [Claims C] (hmac : HMACFn) (j : JWTManager)
    (now : Time) (ts : TokenString) (c : C) :
    ((j.GetTokenExpiration hmac now ts c).2.2 ≠ none ↔
      ((j.ParseToken hmac now ts c).2 ≠ none ∨
        ((j.ParseToken hmac now ts c).2 = none ∧
          Claims.GetExpirationTime (j.ParseToken hmac now ts c).1 = .ok none))) ∧
    (∀ err, (j.ParseToken hmac now ts c).2 = some err →
      j.GetTokenExpiration hmac now ts c = ((j.ParseToken hmac now ts c).1, zeroTime, some err)) ∧
    ((j.ParseToken hmac now ts c).2 = none →
      Claims.GetExpirationTime (j.ParseToken hmac now ts c).1 = .ok none →
      j.GetTokenExpiration hmac now ts c =
        ((j.ParseToken hmac now ts c).1, zeroTime, some .noExpirationTime)) ∧
    (∀ e, (j.ParseToken hmac now ts c).2 = none →
      Claims.GetExpirationTime (j.ParseToken hmac now ts c).1 = .ok (some e) →
      j.GetTokenExpiration hmac now ts c = ((j.ParseToken hmac now ts c).1, e, none)) := by
  have hok := accessor_ok_of_ParseToken_ok hmac j now ts c
  unfold JWTManager.GetTokenExpiration
  cases hpt : j.ParseToken hmac now ts c with
  | mk c1 err =>
    rw [hpt] at hok
    cases err with
    | some e => simp
    | none =>
      obtain ⟨o, ho⟩ := hok rfl
      simp only at ho
      cases o with
      | none => simp [ho]
      | some e => simp [ho]

/-- C10, at three tokens read at second 2000 into an empty `TestClaims`: the
token of `expiredClaims` (parse error returned unchanged), a token issued for
claims without expiration (no-expiration error) and the token of
`freshClaims` (its expiration, second 5000). -/
theorem C10_GetTokenExpiration_cases_witness :
    (testManager.GetTokenExpiration exampleHMAC (2000 * Second)
      (issuedToken exampleHMAC testManager.secretKey expiredClaims.MarshalJSON)
      ({} : TestClaims)).2 =
      (zeroTime, some (.failedToParse (.TokenInvalidClaims [.TokenExpired]))) ∧
    (testManager.GetTokenExpiration exampleHMAC (2000 * Second)
      (issuedToken exampleHMAC testManager.secretKey ({} : TestClaims).MarshalJSON)
      ({} : TestClaims)).2 = (zeroTime, some .noExpirationTime) ∧
    (testManager.GetTokenExpiration exampleHMAC (2000 * Second)
      (issuedToken exampleHMAC testManager.secretKey freshClaims.MarshalJSON)
      ({} : TestClaims)).2 = (5000 * Second, none) := by
  refine ⟨?_, ?_, ?_⟩
  · rw [(C10_GetTokenExpiration_cases exampleHMAC testManager (2000 * Second)
      (issuedToken exampleHMAC testManager.secretKey expiredClaims.MarshalJSON)
      ({} : TestClaims)).2.1 (.failedToParse (.TokenInvalidClaims [.TokenExpired]))
      (by decide)]
  · rw [(C10_GetTokenExpiration_cases exampleHMAC testManager (2000 * Second)
      (issuedToken exampleHMAC testManager.secretKey ({} : TestClaims).MarshalJSON)
      ({} : TestClaims)).2.2.1 (by decide) (by rfl)]
  · rw [(C10_GetTokenExpiration_cases exampleHMAC testManager (2000 * Second)
      (issuedToken exampleHMAC testManager.secretKey freshClaims.MarshalJSON)
      ({} : TestClaims)).2.2.2 (5000 * Second) (by decide) (by rfl)]

/-- C12: with the two parses of one call reading the same time, for every
token string and every claims object of a type whose JSON decoding, repeated
on the object it has filled, leaves it as it is (as `json.Unmarshal` does;
`TestClaims_unmarshal_idem` for the claims of the repository),
`IsTokenExpired` returns `(false, nil)` if and only if `ParseToken` succeeds
on the same input; when `ParseToken` fails it returns true together with a
non-nil error, the error of the repeated parse; it never returns
`(true, nil)`. -/
theorem C12_IsTokenExpired_iff_ParseToken {C : Type} [Claims C] (hmac : HMACFn)
    (j : JWTManager) (now now3 : Time) (ts : TokenString) (c : C)
    (hidem : ∀ (p : JSONObject) (a b : C), Claims.UnmarshalJSON p a = .ok b →
      Claims.UnmarshalJSON p b = .ok b) :
    ((j.IsTokenExpired hmac now now now3 ts c).2 = (false, none) ↔
      (j.ParseToken hmac now ts c).2 = none) ∧
    ((j.ParseToken hmac now ts c).2 ≠ none →
      (j.IsTokenExpired hmac now now now3 ts c).2.1 = true ∧
      (j.IsTokenExpired hmac now now now3 ts c).2.2 ≠ none) ∧
    (∀ e, (j.ParseToken hmac now ts c).2 = some (.failedToParse e) →
      (j.IsTokenExpired hmac now now now3 ts c).2 = (true, some e)) ∧
    (j.IsTokenExpired hmac now now now3 ts c).2 ≠ (true, none) := by
  rw [IsTokenExpired_fixed_clock hmac j now now3 ts c hidem, ParseToken_eq]
  cases herr : (ParseWithClaims hmac now ts c j.keyFunc).err with
  | none => simp
  | some e => simp

/-- C12, at the token issued for `expiredClaims`, read at second 2000 into an
empty `TestClaims`: `ParseToken` fails and `IsTokenExpired` returns true with
the token-expired error of the validator. -/
theorem C12_IsTokenExpired_iff_ParseToken_witness :
    (testManager.ParseToken exampleHMAC (2000 * Second)
      (issuedToken exampleHMAC testManager.secretKey expiredClaims.MarshalJSON)
      ({} : TestClaims)).2 ≠ none ∧
    (testManager.IsTokenExpired exampleHMAC (2000 * Second) (2000 * Second) (2000 * Second)
      (issuedToken exampleHMAC testManager.secretKey expiredClaims.MarshalJSON)
      ({} : TestClaims)).2 = (true, some (.TokenInvalidClaims [.TokenExpired])) :=
  ⟨by decide,
   (C12_IsTokenExpired_iff_ParseToken exampleHMAC testManager (2000 * Second) (2000 * Second)
      (issuedToken exampleHMAC testManager.secretKey expiredClaims.MarshalJSON)
      ({} : TestClaims) TestClaims_unmarshal_idem).2.2.1
      (.TokenInvalidClaims [.TokenExpired]) (by decide)⟩

/-- C11 as stated fails at the keys `test-secret-key` and `test-secret-key`
followed by a zero byte: they are distinct, and `hmac.New` copies either into
the same zero-padded key block, so the token issued under the first is
accepted by `ParseToken` under the second (here with `exampleHash` as hash
function; `cryptoHMAC_zero` shows the same for every hash function). -/
theorem C11_distinct_keys_counterexample :
    "test-secret-key" ≠ "test-secret-key\x00" ∧
    (NewJWTManager "test-secret-key").GenerateToken (cryptoHMAC exampleHash exampleText)
      freshClaims =
      .ok (issuedToken (cryptoHMAC exampleHash exampleText) "test-secret-key"
        freshClaims.MarshalJSON) ∧
    (NewJWTManager "test-secret-key\x00").ParseToken (cryptoHMAC exampleHash exampleText)
      (2000 * Second)
      (issuedToken (cryptoHMAC exampleHash exampleText) "test-secret-key"
        freshClaims.MarshalJSON)
      ({} : TestClaims) = (freshClaims, none) := by
  refine ⟨by decide, rfl, ?_⟩
  have hz := cryptoHMAC_zero exampleHash exampleText .SHA256 "test-secret-key"
    (NewHeader (.HMAC .SHA256), freshClaims.MarshalJSON) (by decide)
  have hkey : "test-secret-key" ++ "\x00" = "test-secret-key\x00" := by decide
  rw [hkey] at hz
  have htok : issuedToken (cryptoHMAC exampleHash exampleText) "test-secret-key"
      freshClaims.MarshalJSON =
      issuedToken (cryptoHMAC exampleHash exampleText)
        (NewJWTManager "test-secret-key\x00").secretKey freshClaims.MarshalJSON := by
    simp only [issuedToken, NewJWTManager, hz]
  have hv : validatorValidate (2000 * Second) freshClaims.truncated = [] := by decide
  have ht : freshClaims.truncated = freshClaims := by decide
  rw [htok, ParseToken_issued_test _ _ _ freshClaims {} (Or.inl rfl), hv, ht]

/-- C11 (amended): for every claims object and every two secret keys K1 and
K2 under which the keyed hash of the token's header and payload differs, the
token produced by `GenerateToken` on a manager constructed with K1 is
rejected by `ParseToken` on a manager constructed with K2 with the
invalid-signature error (`ErrTokenSignatureInvalid`, wrapped by
`failed to parse token`), the payload being decoded into the claims object
passed. -/
theorem C11_distinct_keys {C : Type} [Claims C] (hmac : HMACFn) (K1 K2 : String) (now : Time)
    (claims out out1 : C) (p : JSONObject)
    (hm : Claims.MarshalJSON claims = .ok p)
    (hu : Claims.UnmarshalJSON p out = .ok out1)
    (hne : hmac .SHA256 K1 (NewHeader (.HMAC .SHA256), p) ≠
      hmac .SHA256 K2 (NewHeader (.HMAC .SHA256), p)) :
    (NewJWTManager K1).GenerateToken hmac claims = .ok (issuedToken hmac K1 p) ∧
    (NewJWTManager K2).ParseToken hmac now (issuedToken hmac K1 p) out =
      (out1, some (.failedToParse .TokenSignatureInvalid)) ∧
    failsWith ((NewJWTManager K2).ParseToken hmac now (issuedToken hmac K1 p) out).2
      .ErrTokenSignatureInvalid = true := by
  have hp := ParseToken_other_key hmac (NewJWTManager K2) now K1 p out out1 hu hne
  refine ⟨GenerateToken_ok hmac (NewJWTManager K1) claims p hm, hp, ?_⟩
  rw [hp]
  rfl

/-- C11 (amended), at the scenario of the spec: the claims of the tests
issued under `test-secret-key` and parsed under `another-secret-key`. -/
theorem C11_distinct_keys_witness :
    (NewJWTManager "another-secret-key").ParseToken exampleHMAC (2000 * Second)
      (issuedToken exampleHMAC "test-secret-key" freshClaims.MarshalJSON)
      ({} : TestClaims) = (freshClaims, some (.failedToParse .TokenSignatureInvalid)) :=
  (C11_distinct_keys exampleHMAC "test-secret-key" "another-secret-key" (2000 * Second)
    freshClaims ({} : TestClaims) freshClaims freshClaims.MarshalJSON rfl
    (by
      rw [show (Claims.UnmarshalJSON freshClaims.MarshalJSON ({} : TestClaims)) =
        TestClaims.UnmarshalJSON freshClaims.MarshalJSON {} from rfl,
        unmarshal_marshal_test freshClaims {} (Or.inl rfl),
        show freshClaims.truncated = freshClaims from by decide])
    (by decide)).2.1

end JWT
